import Mathlib

set_option maxHeartbeats 1000000
set_option maxRecDepth 8000

/- Shallow embedding of the gap buffer implementation in gap_buffer.c.

   Conventions:
   - Bytes are natural numbers; the C type uint8_t / char guarantees every
     stored byte is below 256, so byte-level hypotheses carry an explicit
     bound x < 256 where a function's behaviour depends on it.
   - The C functions mutate the buffer in place; here every operation
     returns the new buffer, paired with the C return value where the C
     function has one.
   - An assert(...) in the C source whose condition is stated by the code
     is modelled as a guard: the Lean function returns Option.none exactly
     when the assertion would fail (the two assertions marked
     FIXME in the source included).
   - Heap allocation is modelled by a Boolean oracle allocOk: true means
     every malloc in the call succeeds, false means malloc returns NULL. -/

/-- Embeds isSymbolAuxiliaryByte (gap_buffer.c line 230): (byte & 0xC0) == 0x80. -/
def isSymbolAuxiliaryByte (b : Nat) : Bool := b &&& 0xC0 == 0x80

/-- Embeds getSymbolLengthFromFirstByte (gap_buffer.c line 441). -/
def getSymbolLengthFromFirstByte (b : Nat) : Nat :=
  if 0xf0 ≤ b then 4 else if 0xe0 ≤ b then 3 else if 0xc0 ≤ b then 2 else 1

/-- The UTF-32 value assembled by the four-byte branch of getSymbolRune
(the local variable temp, gap_buffer.c lines 306-310). -/
def symRuneVal4 (b0 b1 b2 b3 : Nat) : Nat :=
  ((b0 &&& 0x07) <<< 18) ||| ((b1 &&& 0x3f) <<< 12) ||| ((b2 &&& 0x3f) <<< 6) ||| (b3 &&& 0x3f)

/-- The UTF-32 value assembled by the three-byte branch of getSymbolRune
(the local variable temp, gap_buffer.c lines 331-334). -/
def symRuneVal3 (b0 b1 b2 : Nat) : Nat :=
  ((b0 &&& 0x0f) <<< 12) ||| ((b1 &&& 0x3f) <<< 6) ||| (b2 &&& 0x3f)

/-- The UTF-32 value assembled by the two-byte branch of getSymbolRune
(gap_buffer.c lines 354-356). -/
def symRuneVal2 (b0 b1 : Nat) : Nat := ((b0 &&& 0x1f) <<< 6) ||| (b1 &&& 0x3f)

/-- The four-byte branch of getSymbolRune (gap_buffer.c lines 293-317).
The match on the tail embeds the symlen < 4 check.  The decoded rune is
only used by the in-range test, so only the return value is modelled. -/
def getSymbolRuneFour (b0 : Nat) (rest : List Nat) : Int :=
  match rest with
  | b1 :: b2 :: b3 :: _ =>
    if isSymbolAuxiliaryByte b1 && isSymbolAuxiliaryByte b2 && isSymbolAuxiliaryByte b3 then
      if symRuneVal4 b0 b1 b2 b3 < 0x10000 ∨ 0x10ffff < symRuneVal4 b0 b1 b2 b3 then -1 else 4
    else -1
  | _ => -1

/-- The three-byte branch of getSymbolRune (gap_buffer.c lines 319-341). -/
def getSymbolRuneThree (b0 : Nat) (rest : List Nat) : Int :=
  match rest with
  | b1 :: b2 :: _ =>
    if isSymbolAuxiliaryByte b1 && isSymbolAuxiliaryByte b2 then
      if symRuneVal3 b0 b1 b2 < 0x0800 ∨ 0xffff < symRuneVal3 b0 b1 b2 then -1 else 3
    else -1
  | _ => -1

/-- The two-byte branch of getSymbolRune (gap_buffer.c lines 343-363). -/
def getSymbolRuneTwo (b0 : Nat) (rest : List Nat) : Int :=
  match rest with
  | b1 :: _ =>
    if isSymbolAuxiliaryByte b1 then
      if symRuneVal2 b0 b1 < 0x80 ∨ 0x7ff < symRuneVal2 b0 b1 then -1 else 2
    else -1
  | [] => -1

/-- Embeds getSymbolRune (gap_buffer.c lines 284-373): returns the number of
bytes consumed (1 to 4), 0 on an empty slice, or -1 on invalid input.
The C test (sym[0] & 0x80) selects the multi-byte branches; numeric
comparisons are on (unsigned char) sym[0], i.e. on the byte value. -/
def getSymbolRune (sym : List Nat) : Int :=
  match sym with
  | [] => 0
  | b0 :: rest =>
    if b0 &&& 0x80 == 0 then 1
    else if 0xf0 ≤ b0 then getSymbolRuneFour b0 rest
    else if 0xe0 ≤ b0 then getSymbolRuneThree b0 rest
    else if 0xc0 ≤ b0 then getSymbolRuneTwo b0 rest
    else -1

/-- Fuelled body of the validation loop of GapBuffer_insertString
(gap_buffer.c lines 404-411).  The fuel is only a structural-recursion
device; validLoop instantiates it with the list length, which is always
enough because each accepted symbol consumes at least one byte. -/
def validLoopGo : Nat → List Nat → Bool
  | _, [] => true
  | 0, _ :: _ => false
  | fuel + 1, b :: rest =>
    let n := getSymbolRune (b :: rest)
    if n < 0 then false
    else validLoopGo fuel ((b :: rest).drop n.toNat)

/-- The UTF-8 validation loop of GapBuffer_insertString: true iff the whole
byte string is consumed by getSymbolRune without a -1. -/
def validLoop (s : List Nat) : Bool := validLoopGo s.length s

/-- Fuelled symbol counter: how many symbols getSymbolRune splits s into
(stops at the first invalid byte).  Derived from the same loop shape as
validLoopGo; used to state codepoint-count properties. -/
def countSymsGo : Nat → List Nat → Nat
  | _, [] => 0
  | 0, _ :: _ => 0
  | fuel + 1, b :: rest =>
    let n := getSymbolRune (b :: rest)
    if n < 0 then 0
    else countSymsGo fuel ((b :: rest).drop n.toNat) + 1

/-- Number of UTF-8 symbols in s as segmented by getSymbolRune. -/
def countSyms (s : List Nat) : Nat := countSymsGo s.length s

/-- Drop the first n symbols of s, as segmented by getSymbolRune. -/
def dropSyms : Nat → List Nat → List Nat
  | 0, s => s
  | _ + 1, [] => []
  | n + 1, b :: rest =>
    let k := getSymbolRune (b :: rest)
    if k < 0 then b :: rest
    else dropSyms n ((b :: rest).drop k.toNat)

/-- Take the first n symbols of s, as segmented by getSymbolRune. -/
def takeSyms : Nat → List Nat → List Nat
  | 0, _ => []
  | _ + 1, [] => []
  | n + 1, b :: rest =>
    let k := getSymbolRune (b :: rest)
    if k < 0 then []
    else (b :: rest).take k.toNat ++ takeSyms n ((b :: rest).drop k.toNat)

/-- The struct GapBuffer (gap_buffer.c lines 14-21).  data is the backing
byte region; its length plays the role of the flexible array's extent and
always equals total in well-formed buffers. -/
structure GapBuffer where
  is_static : Bool
  no_resize : Bool
  gap_offset : Nat
  gap_length : Nat
  total : Nat
  data : List Nat
deriving Repr, DecidableEq

/-- Embeds getStringBeforeGap (gap_buffer.c line 114). -/
def getStringBeforeGap (b : GapBuffer) : List Nat := b.data.take b.gap_offset

/-- Embeds getStringAfterGap (gap_buffer.c line 130). -/
def getStringAfterGap (b : GapBuffer) : List Nat := b.data.drop (b.gap_offset + b.gap_length)

/-- Embeds GapBuffer_getByteCount (gap_buffer.c line 33). -/
def GapBuffer_getByteCount (b : GapBuffer) : Nat := b.total - b.gap_length

/-- Embeds GapBuffer_create (gap_buffer.c line 88) in the case malloc
succeeds.  malloc does not initialise the region; the gap bytes are never
part of the logical content, so they are modelled as zeros. -/
def GapBuffer_create (capacity : Nat) : GapBuffer :=
  { is_static := false, no_resize := false, gap_offset := 0,
    gap_length := capacity, total := capacity, data := List.replicate capacity 0 }

/-- Embeds GapBuffer_createUsingMemory (gap_buffer.c line 56): the caller
supplies the region; its bytes past the header become the capacity.  mem
is the (uninitialised) byte content of that capacity-sized region. -/
def GapBuffer_createUsingMemory (mem : List Nat) : GapBuffer :=
  { is_static := true, no_resize := true, gap_offset := 0,
    gap_length := mem.length, total := mem.length, data := mem }

/-- memcpy(dst + off, src, src.length) on a byte region modelled as a list. -/
def memcpyAt (dst : List Nat) (off : Nat) (src : List Nat) : List Nat :=
  dst.take off ++ src ++ dst.drop (off + src.length)

/-- memmove(data + dst, data + src, n): the overlap-safe block move used by
moveBytesAfterGap / moveBytesBeforeGap, as a functional update. -/
def memmoveList (data : List Nat) (dst src n : Nat) : List Nat :=
  data.take dst ++ (data.drop src).take n ++ data.drop (dst + n)

/-- insertBytesBeforeCursor (gap_buffer.c line 195) as called from growGap:
there ensureSpace never needs to grow (the fresh buffer's gap is large
enough), so the grow path is modelled as the impossible none. -/
def insertBytesBeforeCursorNoGrow (b : GapBuffer) (str : List Nat) : Option GapBuffer :=
  if b.gap_length < str.length then none
  else some { b with data := memcpyAt b.data b.gap_offset str,
                     gap_offset := b.gap_offset + str.length,
                     gap_length := b.gap_length - str.length }

/-- insertBytesAfterCursor (gap_buffer.c line 205) as called from growGap;
same convention as insertBytesBeforeCursorNoGrow. -/
def insertBytesAfterCursorNoGrow (b : GapBuffer) (str : List Nat) : Option GapBuffer :=
  if b.gap_length < str.length then none
  else some { b with data := memcpyAt b.data (b.gap_offset + b.gap_length - str.length) str,
                     gap_length := b.gap_length - str.length }

/-- Embeds growGap (gap_buffer.c line 214).  none models malloc failure
(allocOk = false) or the impossible inner ensureSpace failure. -/
def growGap (allocOk : Bool) (b : GapBuffer) (min : Nat) : Option GapBuffer :=
  let capacity := max (2 * b.total) (b.total + min)
  if allocOk then
    (insertBytesBeforeCursorNoGrow (GapBuffer_create capacity) (getStringBeforeGap b)).bind
      fun nb => insertBytesAfterCursorNoGrow nb (getStringAfterGap b)
  else none

/-- Embeds ensureSpace (gap_buffer.c line 176): returns the C boolean and
the (possibly relocated) buffer the caller's handle refers to afterwards. -/
def ensureSpace (allocOk : Bool) (b : GapBuffer) (min : Nat) : Bool × GapBuffer :=
  if b.gap_length < min then
    if b.no_resize then (false, b)
    else
      match growGap allocOk b min with
      | none => (false, b)
      | some nb => (true, nb)
  else (true, b)

/-- Embeds insertBytesBeforeCursor (gap_buffer.c line 195) with its
ensureSpace call. -/
def insertBytesBeforeCursor (allocOk : Bool) (b : GapBuffer) (str : List Nat) :
    Bool × GapBuffer :=
  match ensureSpace allocOk b str.length with
  | (false, b1) => (false, b1)
  | (true, b1) =>
    (true, { b1 with data := memcpyAt b1.data b1.gap_offset str,
                     gap_offset := b1.gap_offset + str.length,
                     gap_length := b1.gap_length - str.length })

/-- Embeds GapBuffer_insertString (gap_buffer.c line 402): the validation
loop is validLoop; on validation failure the buffer is untouched. -/
def GapBuffer_insertString (allocOk : Bool) (b : GapBuffer) (str : List Nat) :
    Bool × GapBuffer :=
  if validLoop str then insertBytesBeforeCursor allocOk b str else (false, b)

/-- The inner do-while of getPrecedingSymbol (gap_buffer.c lines 424-432):
starting from index i, step back over auxiliary bytes; none models the
assert(i > 0) marked FIXME failing. -/
def skipAuxBack (data : List Nat) : Nat → Option Nat
  | 0 => none
  | j + 1 => if isSymbolAuxiliaryByte (data.getD j 0) then skipAuxBack data j else some j

/-- The outer while of getPrecedingSymbol (gap_buffer.c line 419). -/
def precLoop (data : List Nat) : Nat → Nat → Option Nat
  | 0, i => some i
  | num + 1, i =>
    if i = 0 then some i
    else (skipAuxBack data i).bind (precLoop data num)

/-- Embeds getPrecedingSymbol (gap_buffer.c line 415). -/
def getPrecedingSymbol (b : GapBuffer) (num : Nat) : Option Nat :=
  precLoop b.data num b.gap_offset

/-- The while loop of getFollowingSymbol (gap_buffer.c line 456). -/
def follLoop (data : List Nat) (total : Nat) : Nat → Nat → Nat
  | 0, i => i
  | num + 1, i =>
    if i < total then follLoop data total num (i + getSymbolLengthFromFirstByte (data.getD i 0))
    else i

/-- Embeds getFollowingSymbol (gap_buffer.c line 453). -/
def getFollowingSymbol (b : GapBuffer) (num : Nat) : Nat :=
  follLoop b.data b.total num (b.gap_offset + b.gap_length)

/-- Embeds GapBuffer_removeForwards (gap_buffer.c line 463). -/
def GapBuffer_removeForwards (b : GapBuffer) (num : Nat) : GapBuffer :=
  let i := getFollowingSymbol b num
  { b with gap_length := i - b.gap_offset }

/-- Embeds GapBuffer_removeBackwards (gap_buffer.c line 469); none models
the assertion inside the backward scan failing. -/
def GapBuffer_removeBackwards (b : GapBuffer) (num : Nat) : Option GapBuffer :=
  (getPrecedingSymbol b num).map fun i =>
    { b with gap_length := b.gap_length + (b.gap_offset - i), gap_offset := i }

/-- Embeds moveBytesAfterGap (gap_buffer.c line 476); the guard is the
conjunction of its assert conditions, none models an assertion failure. -/
def moveBytesAfterGap (b : GapBuffer) (num : Nat) : Option GapBuffer :=
  if num ≤ b.gap_offset ∧ b.gap_offset ≤ b.total ∧ b.gap_offset + b.gap_length ≤ b.total then
    some { b with data := memmoveList b.data (b.gap_offset + b.gap_length - num)
                            (b.gap_offset - num) num,
                  gap_offset := b.gap_offset - num }
  else none

/-- Embeds moveBytesBeforeGap (gap_buffer.c line 490); the first guard is
the assert marked FIXME (total - gap_offset - gap_length >= num). -/
def moveBytesBeforeGap (b : GapBuffer) (num : Nat) : Option GapBuffer :=
  if num ≤ b.total - b.gap_offset - b.gap_length ∧ b.gap_offset ≤ b.total ∧
     b.gap_offset + b.gap_length ≤ b.total then
    some { b with data := memmoveList b.data b.gap_offset (b.gap_offset + b.gap_length) num,
                  gap_offset := b.gap_offset + num }
  else none

/-- Embeds GapBuffer_moveRelative (gap_buffer.c line 504). -/
def GapBuffer_moveRelative (b : GapBuffer) (off : Int) : Option GapBuffer :=
  if off < 0 then
    (getPrecedingSymbol b (-off).toNat).bind fun i => moveBytesAfterGap b (b.gap_offset - i)
  else
    let i := getFollowingSymbol b off.toNat
    moveBytesBeforeGap b (i - b.gap_offset - b.gap_length)

/-- The scan loop of GapBuffer_moveAbsolute (gap_buffer.c lines 523-532),
including the jump over the gap when the scan reaches gap_offset. -/
def absLoop (data : List Nat) (total gapOff gapLen : Nat) : Nat → Nat → Nat
  | 0, i => i
  | num + 1, i =>
    if i < total then
      let i2 := i + getSymbolLengthFromFirstByte (data.getD i 0)
      let i3 := if i2 = gapOff then i2 + gapLen else i2
      absLoop data total gapOff gapLen num i3
    else i

/-- Embeds GapBuffer_moveAbsolute (gap_buffer.c line 515). -/
def GapBuffer_moveAbsolute (b : GapBuffer) (num : Nat) : Option GapBuffer :=
  let i0 := if 0 < b.gap_offset then 0 else b.gap_length
  let i := absLoop b.data b.total b.gap_offset b.gap_length num i0
  if i ≤ b.gap_offset then moveBytesAfterGap b (b.gap_offset - i)
  else moveBytesBeforeGap b (i - b.gap_offset - b.gap_length)

/-- All bytes of a list fit in eight bits (automatic for C byte arrays). -/
def AllBytes (s : List Nat) : Prop := ∀ x ∈ s, x < 256

/-- The internal invariant of a gap buffer: the geometry is consistent and
both content regions validate under the implementation's own UTF-8
validation loop (the sense of valid UTF-8 defined by the codec of this
source, which is also the sense used by its insertion validation). -/
def BufInv (b : GapBuffer) : Prop :=
  b.data.length = b.total ∧
  b.gap_offset + b.gap_length ≤ b.total ∧
  AllBytes b.data ∧
  validLoop (getStringBeforeGap b) = true ∧
  validLoop (getStringAfterGap b) = true

/-- Buffer states reachable through the public constructors and operations
of gap_buffer.h.  Operations whose embedding returns Option only produce a
new state when no assertion failed. -/
inductive Reachable : GapBuffer → Prop where
  | create (capacity : Nat) : Reachable (GapBuffer_create capacity)
  | createUsingMemory (mem : List Nat) (hb : AllBytes mem) :
      Reachable (GapBuffer_createUsingMemory mem)
  | insertString (b : GapBuffer) (allocOk : Bool) (str : List Nat) (hb : AllBytes str)
      (h : Reachable b) : Reachable (GapBuffer_insertString allocOk b str).2
  | moveRelative (b : GapBuffer) (off : Int) (b2 : GapBuffer) (h : Reachable b)
      (hs : GapBuffer_moveRelative b off = some b2) : Reachable b2
  | moveAbsolute (b : GapBuffer) (num : Nat) (b2 : GapBuffer) (h : Reachable b)
      (hs : GapBuffer_moveAbsolute b num = some b2) : Reachable b2
  | removeForwards (b : GapBuffer) (num : Nat) (h : Reachable b) :
      Reachable (GapBuffer_removeForwards b num)
  | removeBackwards (b : GapBuffer) (num : Nat) (b2 : GapBuffer) (h : Reachable b)
      (hs : GapBuffer_removeBackwards b num = some b2) : Reachable b2

/-- The iterator struct GapBufferIter (gap_buffer.h): the borrowed buffer is
passed separately; mem only carries ownership in C, so it is not modelled;
maybe is the 512-byte inline scratch array (uninitialised at init). -/
structure GapBufferIter where
  crossed_gap : Bool
  cur : Nat
  maybe : List Nat
deriving Repr, DecidableEq

/-- A yielded line (GapBufferLine): str is the byte content observable
through the returned pointer, len the stored length field. -/
structure GapBufferLine where
  str : List Nat
  len : Nat
deriving Repr, DecidableEq

/-- Embeds GapBufferIter_init (gap_buffer.c line 540); scratch starts as the
512 (uninitialised, modelled as zero) bytes of the inline array. -/
def GapBufferIter_init : GapBufferIter :=
  { crossed_gap := false, cur := 0, maybe := List.replicate 512 0 }

/-- Fuelled body of the newline scans in GapBufferIter_next:
while (i < bound && data[i] != newline) i++.  scanNL supplies fuel
bound - i, which is exactly the number of possible steps. -/
def scanNLGo (data : List Nat) (bound : Nat) : Nat → Nat → Nat
  | 0, i => i
  | fuel + 1, i =>
    if i < bound then
      if data.getD i 0 == 10 then i else scanNLGo data bound fuel (i + 1)
    else i

/-- Position of the first newline at or after i (capped at bound). -/
def scanNL (data : List Nat) (bound i : Nat) : Nat := scanNLGo data bound (bound - i) i

/-- Embeds GapBufferIter_next (gap_buffer.c line 556) for the buffer b.
Returns none where the C function returns false (leaving the iterator
unchanged), otherwise the yielded line and the successor state.  allocOk
tells whether the malloc used to stitch an oversized gap-straddling line
succeeds.  In the malloc-failure path the C code copies the second
fragment at offset line_offset (not line_length) of the scratch array and
stores the combined length in line->len; both are modelled as written. -/
def GapBufferIter_next (allocOk : Bool) (b : GapBuffer) (st : GapBufferIter) :
    Option (GapBufferLine × GapBufferIter) :=
  let i := st.cur
  let data := b.data
  if st.crossed_gap then
    let i2 := scanNL data b.total i
    let lineLen := i2 - i
    if i2 < b.total then
      some ({ str := (data.drop i).take lineLen, len := lineLen },
            { st with cur := i2 + 1 })
    else
      if lineLen = 0 then none
      else some ({ str := (data.drop i).take lineLen, len := lineLen },
                 { st with cur := i2 })
  else
    let i2 := scanNL data b.gap_offset i
    let lineLen := i2 - i
    if i2 = b.gap_offset then
      let i3 := i2 + b.gap_length
      let i4 := scanNL data b.total i3
      let lineLen2 := i4 - i3
      if b.total ≤ i4 ∧ lineLen + lineLen2 = 0 then none
      else
        let i5 := if i4 < b.total then i4 + 1 else i4
        let frag1 := (data.drop i).take lineLen
        let frag2 := (data.drop i3).take lineLen2
        if 512 < lineLen + lineLen2 then
          if allocOk then
            some ({ str := frag1 ++ frag2, len := lineLen + lineLen2 },
                  { crossed_gap := true, cur := i5, maybe := st.maybe })
          else
            let m2 := if 512 < lineLen then memcpyAt st.maybe 0 (frag1.take 512)
                      else memcpyAt (memcpyAt st.maybe 0 frag1) i (frag2.take (512 - lineLen))
            some ({ str := m2, len := lineLen + lineLen2 },
                  { crossed_gap := true, cur := i5, maybe := m2 })
        else
          let m2 := memcpyAt (memcpyAt st.maybe 0 frag1) lineLen frag2
          some ({ str := m2.take (lineLen + lineLen2), len := lineLen + lineLen2 },
                { crossed_gap := true, cur := i5, maybe := m2 })
    else
      some ({ str := (data.drop i).take lineLen, len := lineLen },
            { st with cur := i2 + 1 })

/-- Run the iterator to exhaustion, collecting the yielded line contents. -/
def iterLines (allocOk : Bool) (b : GapBuffer) : Nat → GapBufferIter → List (List Nat)
  | 0, _ => []
  | fuel + 1, st =>
    match GapBufferIter_next allocOk b st with
    | none => []
    | some (line, st2) => line.str :: iterLines allocOk b fuel st2

/-- All lines the iterator yields on b, from a fresh iterator, with
allocation available.  One byte of progress is guaranteed per yielded
line, so total + 1 steps exhaust the buffer. -/
def linesOf (b : GapBuffer) : List (List Nat) :=
  iterLines true b (b.total + 1) GapBufferIter_init

/-- Modelled from the spec (claim side): split a byte string into lines on
the newline byte, delimiter excluded; a final unterminated non-empty
fragment is a last line; the empty string has no lines.  Fuelled for
structural recursion; each step consumes at least one byte. -/
def splitLinesGo : Nat → List Nat → List (List Nat)
  | _, [] => []
  | 0, _ :: _ => []
  | fuel + 1, x :: t =>
    let l := (x :: t).takeWhile fun y => y != 10
    match (x :: t).dropWhile fun y => y != 10 with
    | [] => [l]
    | _ :: rt => l :: splitLinesGo fuel rt

/-- Claim-side line splitting of a logical string. -/
def splitLines (s : List Nat) : List (List Nat) := splitLinesGo s.length s

/-- c is exactly one UTF-8 symbol as accepted by getSymbolRune. -/
def IsSym (c : List Nat) : Prop := c ≠ [] ∧ getSymbolRune c = (c.length : Int)

/-- Every element of cs is a single accepted symbol: a segmentation of a
byte string that the validation loop accepts. -/
def SymChunks (cs : List (List Nat)) : Prop := ∀ c ∈ cs, IsSym c

/-- Simulation invariant tying an iterator state to the still-unyielded
suffix rem of the logical string: before the gap is crossed the cursor
sits inside the before-gap region and rem is the rest of that region plus
the whole after-gap region; afterwards the cursor indexes directly into
the after-gap region.  The scratch array keeps its 512-byte size. -/
def IterInv (b : GapBuffer) (st : GapBufferIter) (rem : List Nat) : Prop :=
  st.maybe.length = 512 ∧
  ((st.crossed_gap = true ∧ st.cur ≤ b.total ∧ rem = b.data.drop st.cur) ∨
   (st.crossed_gap = false ∧ st.cur ≤ b.gap_offset ∧
     rem = (b.data.drop st.cur).take (b.gap_offset - st.cur) ++
       b.data.drop (b.gap_offset + b.gap_length)))

/-- Modelled from the spec (claim side, section 4.2): a byte matching the
continuation pattern 10xxxxxx, i.e. a value in 0x80..0xBF. -/
def specIsContinuation (b : Nat) : Bool := if 0x80 ≤ b ∧ b ≤ 0xBF then true else false

/-- Modelled from the spec (claim side, section 4.2 decode_one): returns the
consumed byte count (1..4) on success, 0 on an empty slice, -1 on any rule
failure.  Rule 1: the lead byte classes are < 0x80, 0xC0..0xDF, 0xE0..0xEF
and 0xF0..0xF7; a continuation byte as lead or a lead >= 0xF8 is invalid.
Rule 2: enough bytes remain.  Rule 3: every continuation byte matches
10xxxxxx.  Rule 4: the decoded codepoint lies in the canonical range for
its length (0x00..0x7F, 0x80..0x7FF, 0x800..0xFFFF, 0x10000..0x10FFFF). -/
def specDecodeOne (s : List Nat) : Int :=
  match s with
  | [] => 0
  | b0 :: rest =>
    if b0 < 0x80 then 1
    else if 0xC0 ≤ b0 ∧ b0 ≤ 0xDF then
      match rest with
      | b1 :: _ =>
        if specIsContinuation b1 then
          if 0x80 ≤ (((b0 &&& 0x1F) <<< 6) ||| (b1 &&& 0x3F)) ∧
              (((b0 &&& 0x1F) <<< 6) ||| (b1 &&& 0x3F)) ≤ 0x7FF then 2 else -1
        else -1
      | [] => -1
    else if 0xE0 ≤ b0 ∧ b0 ≤ 0xEF then
      match rest with
      | b1 :: b2 :: _ =>
        if specIsContinuation b1 && specIsContinuation b2 then
          if 0x800 ≤ (((b0 &&& 0x0F) <<< 12) ||| ((b1 &&& 0x3F) <<< 6) ||| (b2 &&& 0x3F)) ∧
              (((b0 &&& 0x0F) <<< 12) ||| ((b1 &&& 0x3F) <<< 6) ||| (b2 &&& 0x3F)) ≤ 0xFFFF
          then 3 else -1
        else -1
      | _ => -1
    else if 0xF0 ≤ b0 ∧ b0 ≤ 0xF7 then
      match rest with
      | b1 :: b2 :: b3 :: _ =>
        if specIsContinuation b1 && specIsContinuation b2 && specIsContinuation b3 then
          if 0x10000 ≤ (((b0 &&& 0x07) <<< 18) ||| ((b1 &&& 0x3F) <<< 12) |||
                ((b2 &&& 0x3F) <<< 6) ||| (b3 &&& 0x3F)) ∧
              (((b0 &&& 0x07) <<< 18) ||| ((b1 &&& 0x3F) <<< 12) |||
                ((b2 &&& 0x3F) <<< 6) ||| (b3 &&& 0x3F)) ≤ 0x10FFFF
          then 4 else -1
        else -1
      | _ => -1
    else -1

/-- Fuelled body of the spec-side validate loop (section 4.2). -/
def specValidGo : Nat → List Nat → Bool
  | _, [] => true
  | 0, _ :: _ => false
  | fuel + 1, b :: rest =>
    if specDecodeOne (b :: rest) < 0 then false
    else specValidGo fuel ((b :: rest).drop (specDecodeOne (b :: rest)).toNat)

/-- Modelled from the spec (claim side, section 4.2 validate): a byte string
is valid UTF-8 iff it is fully consumed by decode_one without failure. -/
def specValid (s : List Nat) : Bool := specValidGo s.length s

/- ===== Byte-level facts (finite checks over the 256 byte values) ===== -/

theorem and80_eq_zero_iff : ∀ b, b < 256 → ((b &&& 0x80 == 0) = true ↔ b < 0x80) := by decide

theorem aux_false_of_lt : ∀ b, b < 0x80 → isSymbolAuxiliaryByte b = false := by decide

theorem aux_false_of_ge : ∀ b, b < 256 → 0xc0 ≤ b → isSymbolAuxiliaryByte b = false := by decide

/- ===== getSymbolRune: branch analysis ===== -/

theorem getSymbolRune_cons (b0 : Nat) (rest : List Nat) :
    getSymbolRune (b0 :: rest) =
      (if b0 &&& 0x80 == 0 then 1
       else if 0xf0 ≤ b0 then getSymbolRuneFour b0 rest
       else if 0xe0 ≤ b0 then getSymbolRuneThree b0 rest
       else if 0xc0 ≤ b0 then getSymbolRuneTwo b0 rest
       else -1) := rfl

theorem getSymbolRuneFour_cases (b0 : Nat) (rest : List Nat) :
    getSymbolRuneFour b0 rest = -1 ∨ getSymbolRuneFour b0 rest = 4 := by
  rcases rest with _ | ⟨b1, _ | ⟨b2, _ | ⟨b3, r⟩⟩⟩
  · exact Or.inl rfl
  · exact Or.inl rfl
  · exact Or.inl rfl
  · simp only [getSymbolRuneFour]
    split
    · split
      · exact Or.inl rfl
      · exact Or.inr rfl
    · exact Or.inl rfl

theorem getSymbolRuneThree_cases (b0 : Nat) (rest : List Nat) :
    getSymbolRuneThree b0 rest = -1 ∨ getSymbolRuneThree b0 rest = 3 := by
  rcases rest with _ | ⟨b1, _ | ⟨b2, r⟩⟩
  · exact Or.inl rfl
  · exact Or.inl rfl
  · simp only [getSymbolRuneThree]
    split
    · split
      · exact Or.inl rfl
      · exact Or.inr rfl
    · exact Or.inl rfl

theorem getSymbolRuneTwo_cases (b0 : Nat) (rest : List Nat) :
    getSymbolRuneTwo b0 rest = -1 ∨ getSymbolRuneTwo b0 rest = 2 := by
  rcases rest with _ | ⟨b1, r⟩
  · exact Or.inl rfl
  · simp only [getSymbolRuneTwo]
    split
    · split
      · exact Or.inl rfl
      · exact Or.inr rfl
    · exact Or.inl rfl

theorem getSymbolRune_cases (b0 : Nat) (rest : List Nat) :
    getSymbolRune (b0 :: rest) = -1 ∨ getSymbolRune (b0 :: rest) = 1 ∨
    getSymbolRune (b0 :: rest) = 2 ∨ getSymbolRune (b0 :: rest) = 3 ∨
    getSymbolRune (b0 :: rest) = 4 := by
  rw [getSymbolRune_cons]
  split
  · simp
  split
  · rcases getSymbolRuneFour_cases b0 rest with h | h <;> simp [h]
  split
  · rcases getSymbolRuneThree_cases b0 rest with h | h <;> simp [h]
  split
  · rcases getSymbolRuneTwo_cases b0 rest with h | h <;> simp [h]
  simp

theorem getSymbolRuneFour_success (b0 : Nat) (rest : List Nat)
    (h : getSymbolRuneFour b0 rest = 4) :
    ∃ b1 b2 b3 r, rest = b1 :: b2 :: b3 :: r ∧
      isSymbolAuxiliaryByte b1 = true ∧ isSymbolAuxiliaryByte b2 = true ∧
      isSymbolAuxiliaryByte b3 = true := by
  rcases rest with _ | ⟨b1, _ | ⟨b2, _ | ⟨b3, r⟩⟩⟩ <;> simp only [getSymbolRuneFour] at h
  · exact absurd h (by decide)
  · exact absurd h (by decide)
  · exact absurd h (by decide)
  · by_cases hc : (isSymbolAuxiliaryByte b1 && isSymbolAuxiliaryByte b2 &&
        isSymbolAuxiliaryByte b3) = true
    · have h1 := hc
      simp only [Bool.and_eq_true] at h1
      exact ⟨b1, b2, b3, r, rfl, h1.1.1, h1.1.2, h1.2⟩
    · rw [if_neg hc] at h
      exact absurd h (by decide)

theorem getSymbolRuneThree_success (b0 : Nat) (rest : List Nat)
    (h : getSymbolRuneThree b0 rest = 3) :
    ∃ b1 b2 r, rest = b1 :: b2 :: r ∧
      isSymbolAuxiliaryByte b1 = true ∧ isSymbolAuxiliaryByte b2 = true := by
  rcases rest with _ | ⟨b1, _ | ⟨b2, r⟩⟩ <;> simp only [getSymbolRuneThree] at h
  · exact absurd h (by decide)
  · exact absurd h (by decide)
  · by_cases hc : (isSymbolAuxiliaryByte b1 && isSymbolAuxiliaryByte b2) = true
    · have h1 := hc
      simp only [Bool.and_eq_true] at h1
      exact ⟨b1, b2, r, rfl, h1.1, h1.2⟩
    · rw [if_neg hc] at h
      exact absurd h (by decide)

theorem getSymbolRuneTwo_success (b0 : Nat) (rest : List Nat)
    (h : getSymbolRuneTwo b0 rest = 2) :
    ∃ b1 r, rest = b1 :: r ∧ isSymbolAuxiliaryByte b1 = true := by
  rcases rest with _ | ⟨b1, r⟩ <;> simp only [getSymbolRuneTwo] at h
  · exact absurd h (by decide)
  · by_cases hc : isSymbolAuxiliaryByte b1 = true
    · exact ⟨b1, r, rfl, hc⟩
    · rw [if_neg hc] at h
      exact absurd h (by decide)

theorem getSymbolRuneFour_tail (b0 b1 b2 b3 : Nat) (r r2 : List Nat) :
    getSymbolRuneFour b0 (b1 :: b2 :: b3 :: r) = getSymbolRuneFour b0 (b1 :: b2 :: b3 :: r2) := rfl

theorem getSymbolRuneThree_tail (b0 b1 b2 : Nat) (r r2 : List Nat) :
    getSymbolRuneThree b0 (b1 :: b2 :: r) = getSymbolRuneThree b0 (b1 :: b2 :: r2) := rfl

theorem getSymbolRuneTwo_tail (b0 b1 : Nat) (r r2 : List Nat) :
    getSymbolRuneTwo b0 (b1 :: r) = getSymbolRuneTwo b0 (b1 :: r2) := rfl

/-- A successful decode looks only at the consumed bytes: taking exactly
them and appending anything decodes the same way. -/
theorem getSymbolRune_stable (b0 : Nat) (rest : List Nat) (n : Int) (t : List Nat)
    (h : getSymbolRune (b0 :: rest) = n) (hn : 1 ≤ n) :
    n.toNat ≤ rest.length + 1 ∧ getSymbolRune ((b0 :: rest).take n.toNat ++ t) = n := by
  rw [getSymbolRune_cons] at h
  split_ifs at h with h80 hf0 he0 hc0
  · subst h
    constructor
    · omega
    · rw [show ((1 : Int).toNat) = 1 from rfl]
      simp only [List.take_succ_cons, List.take_zero]
      rw [List.cons_append, List.nil_append, getSymbolRune_cons, if_pos h80]
  · rcases getSymbolRuneFour_cases b0 rest with hc | hc
    · rw [hc] at h; omega
    · rw [hc] at h
      subst h
      obtain ⟨b1, b2, b3, r, hr, _, _, _⟩ := getSymbolRuneFour_success b0 rest hc
      subst hr
      refine ⟨by simp, ?_⟩
      rw [show ((4 : Int).toNat) = 4 from rfl]
      simp only [List.take_succ_cons, List.take_zero]
      simp only [List.cons_append, List.nil_append]
      rw [getSymbolRune_cons, if_neg h80, if_pos hf0,
        getSymbolRuneFour_tail b0 b1 b2 b3 t r, hc]
  · rcases getSymbolRuneThree_cases b0 rest with hc | hc
    · rw [hc] at h; omega
    · rw [hc] at h
      subst h
      obtain ⟨b1, b2, r, hr, _, _⟩ := getSymbolRuneThree_success b0 rest hc
      subst hr
      refine ⟨by simp, ?_⟩
      rw [show ((3 : Int).toNat) = 3 from rfl]
      simp only [List.take_succ_cons, List.take_zero]
      simp only [List.cons_append, List.nil_append]
      rw [getSymbolRune_cons, if_neg h80, if_neg hf0, if_pos he0,
        getSymbolRuneThree_tail b0 b1 b2 t r, hc]
  · rcases getSymbolRuneTwo_cases b0 rest with hc | hc
    · rw [hc] at h; omega
    · rw [hc] at h
      subst h
      obtain ⟨b1, r, hr, _⟩ := getSymbolRuneTwo_success b0 rest hc
      subst hr
      refine ⟨by simp, ?_⟩
      rw [show ((2 : Int).toNat) = 2 from rfl]
      simp only [List.take_succ_cons, List.take_zero]
      simp only [List.cons_append, List.nil_append]
      rw [getSymbolRune_cons, if_neg h80, if_neg hf0, if_neg he0, if_pos hc0,
        getSymbolRuneTwo_tail b0 b1 t r, hc]
  · omega

/-- A single symbol followed by anything decodes to exactly its length. -/
theorem isSym_append (c t : List Nat) (h : IsSym c) :
    getSymbolRune (c ++ t) = (c.length : Int) := by
  obtain ⟨hne, hc⟩ := h
  rcases c with _ | ⟨b0, rest⟩
  · exact absurd rfl hne
  · have hs := getSymbolRune_stable b0 rest _ t hc (by exact_mod_cast Nat.succ_le_succ (Nat.zero_le _))
    have ht : ((((rest.length + 1 : Nat)) : Int)).toNat = rest.length + 1 := by omega
    rw [List.length_cons] at hs ⊢
    rw [ht] at hs
    have : (b0 :: rest).take (rest.length + 1) = b0 :: rest := by
      rw [show rest.length + 1 = (b0 :: rest).length from rfl, List.take_length]
    rw [this] at hs
    exact hs.2

/-- The shape of a symbol: a non-auxiliary lead byte whose
getSymbolLengthFromFirstByte equals the symbol length, followed by
auxiliary bytes only. -/
theorem isSym_shape (c : List Nat) (hb : AllBytes c) (h : IsSym c) :
    ∃ b0 t, c = b0 :: t ∧ isSymbolAuxiliaryByte b0 = false ∧
      getSymbolLengthFromFirstByte b0 = c.length ∧
      (∀ x ∈ t, isSymbolAuxiliaryByte x = true) := by
  obtain ⟨hne, hc⟩ := h
  rcases c with _ | ⟨b0, rest⟩
  · exact absurd rfl hne
  have hb0 : b0 < 256 := hb b0 (by simp)
  rw [List.length_cons, getSymbolRune_cons] at hc
  refine ⟨b0, rest, rfl, ?_⟩
  split_ifs at hc with h80 hf0 he0 hc0
  · have hlt : b0 < 0x80 := (and80_eq_zero_iff b0 hb0).mp h80
    have hrest : rest = [] := by
      have : (rest.length + 1 : Int) = 1 := hc.symm
      have : rest.length = 0 := by omega
      exact List.length_eq_zero.mp this
    subst hrest
    refine ⟨aux_false_of_lt b0 hlt, ?_, by simp⟩
    simp only [getSymbolLengthFromFirstByte, List.length_cons, List.length_nil]
    repeat rw [if_neg (by omega)]
  · rcases getSymbolRuneFour_cases b0 rest with hx | hx
    · rw [hx] at hc; omega
    · have hlen : rest.length = 3 := by rw [hx] at hc; omega
      obtain ⟨b1, b2, b3, r, hr, a1, a2, a3⟩ := getSymbolRuneFour_success b0 rest hx
      subst hr
      have hr0 : r = [] := by
        simp only [List.length_cons] at hlen
        exact List.length_eq_zero.mp (by omega)
      subst hr0
      refine ⟨aux_false_of_ge b0 hb0 (by omega), ?_, ?_⟩
      · simp only [getSymbolLengthFromFirstByte, List.length_cons, List.length_nil]
        rw [if_pos hf0]
      · intro x hx2
        simp only [List.mem_cons, List.not_mem_nil, or_false] at hx2
        rcases hx2 with rfl | rfl | rfl
        exacts [a1, a2, a3]
  · rcases getSymbolRuneThree_cases b0 rest with hx | hx
    · rw [hx] at hc; omega
    · have hlen : rest.length = 2 := by rw [hx] at hc; omega
      obtain ⟨b1, b2, r, hr, a1, a2⟩ := getSymbolRuneThree_success b0 rest hx
      subst hr
      have hr0 : r = [] := by
        simp only [List.length_cons] at hlen
        exact List.length_eq_zero.mp (by omega)
      subst hr0
      refine ⟨aux_false_of_ge b0 hb0 (by omega), ?_, ?_⟩
      · simp only [getSymbolLengthFromFirstByte, List.length_cons, List.length_nil]
        rw [if_neg (by omega), if_pos he0]
      · intro x hx2
        simp only [List.mem_cons, List.not_mem_nil, or_false] at hx2
        rcases hx2 with rfl | rfl
        exacts [a1, a2]
  · rcases getSymbolRuneTwo_cases b0 rest with hx | hx
    · rw [hx] at hc; omega
    · have hlen : rest.length = 1 := by rw [hx] at hc; omega
      obtain ⟨b1, r, hr, a1⟩ := getSymbolRuneTwo_success b0 rest hx
      subst hr
      have hr0 : r = [] := by
        simp only [List.length_cons] at hlen
        exact List.length_eq_zero.mp (by omega)
      subst hr0
      refine ⟨aux_false_of_ge b0 hb0 (by omega), ?_, ?_⟩
      · simp only [getSymbolLengthFromFirstByte, List.length_cons, List.length_nil]
        rw [if_neg (by omega), if_neg (by omega), if_pos hc0]
      · intro x hx2
        simp only [List.mem_cons, List.not_mem_nil, or_false] at hx2
        subst hx2
        exact a1

/- ===== The validation loop and symbol segmentations ===== -/

theorem validLoopGo_nil (f : Nat) : validLoopGo f [] = true := by cases f <;> rfl

theorem countSymsGo_nil (f : Nat) : countSymsGo f [] = 0 := by cases f <;> rfl

theorem getSymbolRune_toNat_pos (b : Nat) (rest : List Nat)
    (h : ¬ getSymbolRune (b :: rest) < 0) :
    1 ≤ (getSymbolRune (b :: rest)).toNat ∧ (getSymbolRune (b :: rest)).toNat ≤ 4 := by
  rcases getSymbolRune_cases b rest with h1 | h1 | h1 | h1 | h1 <;> rw [h1] at h ⊢ <;>
    first
    | exact absurd (by decide) h
    | exact ⟨by decide, by decide⟩

theorem validLoopGo_fuel : ∀ f1 f2 (s : List Nat), s.length ≤ f1 → s.length ≤ f2 →
    validLoopGo f1 s = validLoopGo f2 s := by
  intro f1
  induction f1 with
  | zero =>
    intro f2 s h1 _
    have : s = [] := List.length_eq_zero.mp (Nat.le_zero.mp h1)
    subst this
    rw [validLoopGo_nil, validLoopGo_nil]
  | succ f1 ih =>
    intro f2 s h1 h2
    cases s with
    | nil => rw [validLoopGo_nil, validLoopGo_nil]
    | cons b rest =>
      cases f2 with
      | zero => simp at h2
      | succ f2 =>
        simp only [validLoopGo]
        by_cases hn : getSymbolRune (b :: rest) < 0
        · rw [if_pos hn, if_pos hn]
        · rw [if_neg hn, if_neg hn]
          have hp := getSymbolRune_toNat_pos b rest hn
          apply ih
          · simp only [List.length_drop, List.length_cons] at *
            omega
          · simp only [List.length_drop, List.length_cons] at *
            omega

theorem countSymsGo_fuel : ∀ f1 f2 (s : List Nat), s.length ≤ f1 → s.length ≤ f2 →
    countSymsGo f1 s = countSymsGo f2 s := by
  intro f1
  induction f1 with
  | zero =>
    intro f2 s h1 _
    have : s = [] := List.length_eq_zero.mp (Nat.le_zero.mp h1)
    subst this
    rw [countSymsGo_nil, countSymsGo_nil]
  | succ f1 ih =>
    intro f2 s h1 h2
    cases s with
    | nil => rw [countSymsGo_nil, countSymsGo_nil]
    | cons b rest =>
      cases f2 with
      | zero => simp at h2
      | succ f2 =>
        simp only [countSymsGo]
        by_cases hn : getSymbolRune (b :: rest) < 0
        · rw [if_pos hn, if_pos hn]
        · rw [if_neg hn, if_neg hn]
          have hp := getSymbolRune_toNat_pos b rest hn
          congr 1
          apply ih
          · simp only [List.length_drop, List.length_cons] at *
            omega
          · simp only [List.length_drop, List.length_cons] at *
            omega

theorem validLoop_nil : validLoop [] = true := rfl

theorem validLoop_cons (b : Nat) (rest : List Nat) :
    validLoop (b :: rest) =
      if getSymbolRune (b :: rest) < 0 then false
      else validLoop ((b :: rest).drop (getSymbolRune (b :: rest)).toNat) := by
  show validLoopGo (rest.length + 1) (b :: rest) = _
  simp only [validLoopGo]
  by_cases hn : getSymbolRune (b :: rest) < 0
  · rw [if_pos hn, if_pos hn]
  · rw [if_neg hn, if_neg hn]
    have hp := getSymbolRune_toNat_pos b rest hn
    apply validLoopGo_fuel
    · simp only [List.length_drop, List.length_cons]
      omega
    · exact Nat.le_refl _

theorem countSyms_cons (b : Nat) (rest : List Nat) :
    countSyms (b :: rest) =
      if getSymbolRune (b :: rest) < 0 then 0
      else countSyms ((b :: rest).drop (getSymbolRune (b :: rest)).toNat) + 1 := by
  show countSymsGo (rest.length + 1) (b :: rest) = _
  simp only [countSymsGo]
  by_cases hn : getSymbolRune (b :: rest) < 0
  · rw [if_pos hn, if_pos hn]
  · rw [if_neg hn, if_neg hn]
    have hp := getSymbolRune_toNat_pos b rest hn
    congr 1
    apply countSymsGo_fuel
    · simp only [List.length_drop, List.length_cons]
      omega
    · exact Nat.le_refl _

theorem isSym_length_pos (c : List Nat) (h : IsSym c) : 0 < c.length := by
  rcases c with _ | ⟨b, r⟩
  · exact absurd rfl h.1
  · simp

theorem symChunks_cons_iff (c : List Nat) (cs : List (List Nat)) :
    SymChunks (c :: cs) ↔ IsSym c ∧ SymChunks cs := by
  constructor
  · intro h
    exact ⟨h c (List.mem_cons_self c cs), fun c2 hc2 => h c2 (List.mem_cons_of_mem c hc2)⟩
  · intro h c2 hc2
    rcases List.mem_cons.mp hc2 with rfl | hm
    · exact h.1
    · exact h.2 c2 hm

theorem validLoop_symFlatten (cs : List (List Nat)) (h : SymChunks cs) :
    validLoop cs.flatten = true := by
  induction cs with
  | nil => rfl
  | cons c cs ih =>
    obtain ⟨hsym, hcs⟩ := (symChunks_cons_iff c cs).mp h
    rcases hc : c with _ | ⟨b0, r⟩
    · exact absurd hc hsym.1
    subst hc
    have happ := isSym_append (b0 :: r) cs.flatten hsym
    rw [List.flatten_cons, List.cons_append, validLoop_cons]
    rw [List.cons_append] at happ
    rw [happ]
    rw [if_neg (by omega)]
    have htn : ((((b0 :: r).length : Nat) : Int)).toNat = (b0 :: r).length := by omega
    rw [htn, ← List.cons_append, List.drop_left]
    exact ih hcs

theorem valid_chunks_of_le : ∀ (n : Nat) (s : List Nat), s.length ≤ n → validLoop s = true →
    ∃ cs, SymChunks cs ∧ s = cs.flatten := by
  intro n
  induction n with
  | zero =>
    intro s hlen _
    have : s = [] := List.length_eq_zero.mp (Nat.le_zero.mp hlen)
    subst this
    exact ⟨[], fun c hc => absurd hc (List.not_mem_nil c), rfl⟩
  | succ n ih =>
    intro s hlen hv
    cases s with
    | nil => exact ⟨[], fun c hc => absurd hc (List.not_mem_nil c), rfl⟩
    | cons b rest =>
      rw [validLoop_cons] at hv
      by_cases hneg : getSymbolRune (b :: rest) < 0
      · rw [if_pos hneg] at hv
        exact absurd hv (by decide)
      · rw [if_neg hneg] at hv
        have hp := getSymbolRune_toNat_pos b rest hneg
        have hstab := getSymbolRune_stable b rest (getSymbolRune (b :: rest)) []
          rfl (by omega)
        rw [List.append_nil] at hstab
        have hcle : (getSymbolRune (b :: rest)).toNat ≤ (b :: rest).length := by
          simp only [List.length_cons]
          exact hstab.1
        have hclen : ((b :: rest).take (getSymbolRune (b :: rest)).toNat).length
            = (getSymbolRune (b :: rest)).toNat := by
          rw [List.length_take]
          omega
        have hsym : IsSym ((b :: rest).take (getSymbolRune (b :: rest)).toNat) := by
          constructor
          · intro hnil
            rw [hnil] at hclen
            simp at hclen
            omega
          · rw [hstab.2, hclen]
            omega
        have hdlen : ((b :: rest).drop (getSymbolRune (b :: rest)).toNat).length ≤ n := by
          simp only [List.length_drop, List.length_cons] at *
          omega
        obtain ⟨cs, hcs, ht⟩ := ih _ hdlen hv
        refine ⟨(b :: rest).take (getSymbolRune (b :: rest)).toNat :: cs, ?_, ?_⟩
        · exact (symChunks_cons_iff _ _).mpr ⟨hsym, hcs⟩
        · rw [List.flatten_cons, ← ht, List.take_append_drop]

theorem valid_chunks (s : List Nat) (h : validLoop s = true) :
    ∃ cs, SymChunks cs ∧ s = cs.flatten :=
  valid_chunks_of_le s.length s (Nat.le_refl _) h

theorem validLoop_append (a b : List Nat) (ha : validLoop a = true)
    (hb : validLoop b = true) : validLoop (a ++ b) = true := by
  obtain ⟨ca, hca, rfl⟩ := valid_chunks a ha
  obtain ⟨cb, hcb, rfl⟩ := valid_chunks b hb
  rw [← List.flatten_append]
  apply validLoop_symFlatten
  intro c hc
  rcases List.mem_append.mp hc with h1 | h1
  · exact hca c h1
  · exact hcb c h1

theorem countSyms_symFlatten (cs : List (List Nat)) (h : SymChunks cs) :
    countSyms cs.flatten = cs.length := by
  induction cs with
  | nil => rfl
  | cons c cs ih =>
    obtain ⟨hsym, hcs⟩ := (symChunks_cons_iff c cs).mp h
    rcases hc : c with _ | ⟨b0, r⟩
    · exact absurd hc hsym.1
    subst hc
    have happ := isSym_append (b0 :: r) cs.flatten hsym
    rw [List.flatten_cons, List.cons_append, countSyms_cons]
    rw [List.cons_append] at happ
    rw [happ, if_neg (by omega)]
    have htn : ((((b0 :: r).length : Nat) : Int)).toNat = (b0 :: r).length := by omega
    rw [htn, ← List.cons_append, List.drop_left, ih hcs, List.length_cons]

theorem dropSyms_symFlatten (n : Nat) (cs : List (List Nat)) (h : SymChunks cs) :
    dropSyms n cs.flatten = (cs.drop n).flatten := by
  induction n generalizing cs with
  | zero => rfl
  | succ n ih =>
    cases cs with
    | nil => rfl
    | cons c cs =>
      obtain ⟨hsym, hcs⟩ := (symChunks_cons_iff c cs).mp h
      rcases hc : c with _ | ⟨b0, r⟩
      · exact absurd hc hsym.1
      subst hc
      have happ := isSym_append (b0 :: r) cs.flatten hsym
      rw [List.flatten_cons, List.cons_append]
      simp only [dropSyms]
      rw [List.cons_append] at happ
      rw [happ, if_neg (by omega)]
      have htn : ((((b0 :: r).length : Nat) : Int)).toNat = (b0 :: r).length := by omega
      rw [htn, ← List.cons_append, List.drop_left, List.drop_succ_cons]
      exact ih cs hcs

theorem takeSyms_symFlatten (n : Nat) (cs : List (List Nat)) (h : SymChunks cs) :
    takeSyms n cs.flatten = (cs.take n).flatten := by
  induction n generalizing cs with
  | zero => rfl
  | succ n ih =>
    cases cs with
    | nil => rfl
    | cons c cs =>
      obtain ⟨hsym, hcs⟩ := (symChunks_cons_iff c cs).mp h
      rcases hc : c with _ | ⟨b0, r⟩
      · exact absurd hc hsym.1
      subst hc
      have happ := isSym_append (b0 :: r) cs.flatten hsym
      rw [List.flatten_cons, List.cons_append]
      simp only [takeSyms]
      rw [List.cons_append] at happ
      rw [happ, if_neg (by omega)]
      have htn : ((((b0 :: r).length : Nat) : Int)).toNat = (b0 :: r).length := by omega
      rw [htn, ← List.cons_append, List.drop_left, List.take_left]
      rw [List.take_succ_cons, List.flatten_cons, ih cs hcs]

/- ===== List index and slice helpers ===== -/

theorem getD_take (l : List Nat) (n i : Nat) (h : i < n) :
    (l.take n).getD i 0 = l.getD i 0 := by
  rw [List.getD_eq_getElem?_getD, List.getD_eq_getElem?_getD, List.getElem?_take, if_pos h]

theorem getD_append_left (pre c : List Nat) (i : Nat) (h : i < pre.length) :
    (pre ++ c).getD i 0 = pre.getD i 0 := by
  rw [List.getD_eq_getElem?_getD, List.getD_eq_getElem?_getD, List.getElem?_append,
    if_pos h]

theorem getD_append_right (pre c : List Nat) (i : Nat) :
    (pre ++ c).getD (pre.length + i) 0 = c.getD i 0 := by
  rw [List.getD_eq_getElem?_getD, List.getD_eq_getElem?_getD, List.getElem?_append,
    if_neg (by omega), show pre.length + i - pre.length = i by omega]

theorem getD_mem (l : List Nat) (n d : Nat) (h : n < l.length) : l.getD n d ∈ l := by
  rw [List.getD_eq_getElem?_getD, List.getElem?_eq_getElem h]
  exact List.getElem_mem h

theorem getD_of_take_concat (data pre c : List Nat)
    (h : data.take (pre.length + c.length) = pre ++ c) :
    ∀ m, m < c.length → data.getD (pre.length + m) 0 = c.getD m 0 := by
  intro m hm
  have h1 : (data.take (pre.length + c.length)).getD (pre.length + m) 0
      = data.getD (pre.length + m) 0 := getD_take _ _ _ (by omega)
  rw [h, getD_append_right] at h1
  exact h1.symm

theorem getD_of_drop (data : List Nat) (p : Nat) (c r : List Nat)
    (h : data.drop p = c ++ r) :
    ∀ m, m < c.length → data.getD (p + m) 0 = c.getD m 0 := by
  intro m hm
  rw [List.getD_eq_getElem?_getD, List.getD_eq_getElem?_getD]
  have h1 : (data.drop p)[m]? = data[p + m]? := List.getElem?_drop data p m
  rw [h, List.getElem?_append, if_pos hm] at h1
  rw [← h1]

theorem flatten_take_of_flatten (cs : List (List Nat)) (k : Nat) :
    cs.flatten.take ((cs.take k).flatten.length) = (cs.take k).flatten := by
  conv =>
    lhs
    rw [show cs.flatten = (cs.take k).flatten ++ (cs.drop k).flatten by
      rw [← List.flatten_append, List.take_append_drop]]
  exact List.take_left _ _

theorem flatten_drop_of_flatten (cs : List (List Nat)) (k : Nat) :
    cs.flatten.drop ((cs.take k).flatten.length) = (cs.drop k).flatten := by
  conv =>
    lhs
    rw [show cs.flatten = (cs.take k).flatten ++ (cs.drop k).flatten by
      rw [← List.flatten_append, List.take_append_drop]]
  exact List.drop_left _ _

theorem drop_take_comm (l : List Nat) (a k : Nat) :
    (l.drop a).take k = (l.take (a + k)).drop a := by
  rw [List.drop_take]
  congr 1
  omega

/- ===== Backward scan (getPrecedingSymbol) ===== -/

theorem skipAuxBack_spec (data : List Nat) (j : Nat) :
    ∀ n, isSymbolAuxiliaryByte (data.getD j 0) = false →
    (∀ m, m < n → isSymbolAuxiliaryByte (data.getD (j + 1 + m) 0) = true) →
    skipAuxBack data (j + 1 + n) = some j := by
  intro n
  induction n with
  | zero =>
    intro hj _
    show skipAuxBack data (j + 1) = some j
    simp only [skipAuxBack, hj]
    rfl
  | succ n ih =>
    intro hj ht
    have harr : j + 1 + (n + 1) = (j + 1 + n) + 1 := by omega
    rw [harr]
    simp only [skipAuxBack]
    rw [ht n (by omega)]
    simp only [if_true]
    exact ih hj fun m hm => ht m (by omega)

theorem skipAuxBack_chunk (data : List Nat) (p : Nat) (c : List Nat)
    (hsym : IsSym c) (hb : AllBytes c)
    (hdat : ∀ m, m < c.length → data.getD (p + m) 0 = c.getD m 0) :
    skipAuxBack data (p + c.length) = some p := by
  obtain ⟨b0, t, rfl, hb0, _, htaux⟩ := isSym_shape c hb hsym
  have harr : p + (b0 :: t).length = p + 1 + t.length := by
    simp only [List.length_cons]
    omega
  rw [harr]
  apply skipAuxBack_spec
  · have := hdat 0 (by simp)
    rw [Nat.add_zero] at this
    rw [this]
    exact hb0
  · intro m hm
    have hd := hdat (m + 1) (by simp only [List.length_cons]; omega)
    rw [show p + (m + 1) = p + 1 + m by omega] at hd
    have hget : (b0 :: t).getD (m + 1) 0 = t.getD m 0 := rfl
    rw [hd, hget]
    exact htaux _ (getD_mem t m 0 hm)

theorem precLoop_spec : ∀ (num : Nat) (cs : List (List Nat)) (data : List Nat),
    SymChunks cs → AllBytes cs.flatten →
    data.take cs.flatten.length = cs.flatten →
    precLoop data num cs.flatten.length =
      some ((cs.take (cs.length - num)).flatten.length) := by
  intro num
  induction num with
  | zero =>
    intro cs data _ _ _
    simp only [precLoop, Nat.sub_zero, List.take_length]
  | succ num ih =>
    intro cs data hcs hb hdat
    rcases List.eq_nil_or_concat cs with rfl | ⟨cs2, c, hcat⟩
    · simp [precLoop]
    rw [show cs2.concat c = cs2 ++ [c] by simp] at hcat
    subst hcat
    have hsym : IsSym c := hcs c (by simp)
    have hcs2 : SymChunks cs2 := fun x hx => hcs x (by simp [hx])
    have hflat : (cs2 ++ [c]).flatten = cs2.flatten ++ c := by
      simp [List.flatten_append]
    have hcpos : 0 < c.length := isSym_length_pos c hsym
    have hlen : (cs2 ++ [c]).flatten.length = cs2.flatten.length + c.length := by
      rw [hflat, List.length_append]
    rw [hlen]
    simp only [precLoop]
    rw [if_neg (by omega)]
    have hbc : AllBytes c := by
      intro x hx
      apply hb
      rw [hflat]
      exact List.mem_append.mpr (Or.inr hx)
    have hdat2 : ∀ m, m < c.length →
        data.getD (cs2.flatten.length + m) 0 = c.getD m 0 := by
      apply getD_of_take_concat
      rw [← hlen, hdat, hflat]
    rw [skipAuxBack_chunk data cs2.flatten.length c hsym hbc hdat2]
    show precLoop data num cs2.flatten.length = _
    have hdat3 : data.take cs2.flatten.length = cs2.flatten := by
      have h1 : (data.take ((cs2 ++ [c]).flatten.length)).take cs2.flatten.length
          = data.take cs2.flatten.length := by
        rw [List.take_take]
        congr 1
        omega
      rw [hdat, hflat, List.take_left] at h1
      exact h1.symm
    have hb2 : AllBytes cs2.flatten := fun x hx =>
      hb x (by rw [hflat]; exact List.mem_append.mpr (Or.inl hx))
    rw [ih cs2 data hcs2 hb2 hdat3]
    have htk : (cs2 ++ [c]).take ((cs2 ++ [c]).length - (num + 1))
        = cs2.take (cs2.length - num) := by
      have hlc : (cs2 ++ [c]).length = cs2.length + 1 := by simp
      rw [hlc, show cs2.length + 1 - (num + 1) = cs2.length - num by omega,
        List.take_append_of_le_length (by omega)]
    rw [htk]

/- ===== Forward scan (getFollowingSymbol) ===== -/

theorem drop_drop_add (l : List Nat) (a b : Nat) : (l.drop a).drop b = l.drop (a + b) := by
  rw [List.drop_drop]

theorem follLoop_spec : ∀ (num : Nat) (cs : List (List Nat)) (data : List Nat)
    (total i : Nat), SymChunks cs → AllBytes cs.flatten → data.length = total →
    data.drop i = cs.flatten →
    follLoop data total num i = i + (cs.take num).flatten.length := by
  intro num
  induction num with
  | zero =>
    intro cs data total i _ _ _ _
    simp [follLoop]
  | succ num ih =>
    intro cs data total i hcs hb hlen hdrop
    cases cs with
    | nil =>
      have hge : ¬ i < total := by
        have := congrArg List.length hdrop
        simp only [List.length_drop, List.flatten_nil, List.length_nil] at this
        omega
      simp only [follLoop]
      rw [if_neg hge]
      simp
    | cons c cs =>
      obtain ⟨hsym, hcs2⟩ := (symChunks_cons_iff c cs).mp hcs
      have hbc : AllBytes c := fun x hx => hb x (by
        rw [List.flatten_cons]
        exact List.mem_append.mpr (Or.inl hx))
      obtain ⟨b0, t, hc, hb0aux, hlenb0, htaux⟩ := isSym_shape c hbc hsym
      have hcpos : 0 < c.length := isSym_length_pos c hsym
      have hlt : i < total := by
        have := congrArg List.length hdrop
        simp only [List.length_drop, List.flatten_cons, List.length_append] at this
        omega
      have hgd : data.getD i 0 = c.getD 0 0 := by
        have := getD_of_drop data i c cs.flatten (by rw [hdrop, List.flatten_cons]) 0 hcpos
        rw [Nat.add_zero] at this
        exact this
      have hgd0 : c.getD 0 0 = b0 := by rw [hc]; rfl
      simp only [follLoop]
      rw [if_pos hlt, hgd, hgd0, hlenb0]
      have hdrop2 : data.drop (i + c.length) = cs.flatten := by
        rw [← drop_drop_add, hdrop, List.flatten_cons, List.drop_left]
      rw [ih cs data total (i + c.length) hcs2 (fun x hx => hb x (by
        rw [List.flatten_cons]; exact List.mem_append.mpr (Or.inr hx))) hlen hdrop2]
      rw [List.take_succ_cons, List.flatten_cons, List.length_append]
      omega

/- ===== The moveAbsolute scan ===== -/

theorem absLoop_after : ∀ (num : Nat) (cs : List (List Nat)) (data : List Nat)
    (total go gl i : Nat), SymChunks cs → AllBytes cs.flatten → data.length = total →
    data.drop i = cs.flatten → go ≤ i →
    absLoop data total go gl num i = i + (cs.take num).flatten.length := by
  intro num
  induction num with
  | zero =>
    intro cs data total go gl i _ _ _ _ _
    simp [absLoop]
  | succ num ih =>
    intro cs data total go gl i hcs hb hlen hdrop hgo
    cases cs with
    | nil =>
      have hge : ¬ i < total := by
        have := congrArg List.length hdrop
        simp only [List.length_drop, List.flatten_nil, List.length_nil] at this
        omega
      simp only [absLoop]
      rw [if_neg hge]
      simp
    | cons c cs =>
      obtain ⟨hsym, hcs2⟩ := (symChunks_cons_iff c cs).mp hcs
      have hbc : AllBytes c := fun x hx => hb x (by
        rw [List.flatten_cons]
        exact List.mem_append.mpr (Or.inl hx))
      obtain ⟨b0, t, hc, hb0aux, hlenb0, htaux⟩ := isSym_shape c hbc hsym
      have hcpos : 0 < c.length := isSym_length_pos c hsym
      have hlt : i < total := by
        have := congrArg List.length hdrop
        simp only [List.length_drop, List.flatten_cons, List.length_append] at this
        omega
      have hgd : data.getD i 0 = b0 := by
        have := getD_of_drop data i c cs.flatten (by rw [hdrop, List.flatten_cons]) 0 hcpos
        rw [Nat.add_zero] at this
        rw [this, hc]
        rfl
      simp only [absLoop]
      rw [if_pos hlt, hgd, hlenb0]
      rw [if_neg (by omega)]
      have hdrop2 : data.drop (i + c.length) = cs.flatten := by
        rw [← drop_drop_add, hdrop, List.flatten_cons, List.drop_left]
      rw [ih cs data total go gl (i + c.length) hcs2 (fun x hx => hb x (by
        rw [List.flatten_cons]; exact List.mem_append.mpr (Or.inr hx))) hlen hdrop2 (by omega)]
      rw [List.take_succ_cons, List.flatten_cons, List.length_append]
      omega

theorem absLoop_before : ∀ (num : Nat) (csL csa : List (List Nat)) (pad data : List Nat)
    (total go gl i : Nat), SymChunks csL → SymChunks csa →
    AllBytes csL.flatten → AllBytes csa.flatten →
    data.length = total → pad.length = gl →
    data.drop i = csL.flatten ++ pad ++ csa.flatten →
    i + csL.flatten.length = go → csL ≠ [] →
    absLoop data total go gl num i =
      (if num < csL.length then i + (csL.take num).flatten.length
       else go + gl + (csa.take (num - csL.length)).flatten.length) := by
  intro num
  induction num with
  | zero =>
    intro csL csa pad data total go gl i hcsL _ _ _ _ _ _ _ hne
    rw [if_pos (by cases csL with | nil => exact absurd rfl hne | cons a l => simp)]
    simp [absLoop]
  | succ num ih =>
    intro csL csa pad data total go gl i hcsL hcsa hbL hba hlen hpad hdrop hgo hne
    cases csL with
    | nil => exact absurd rfl hne
    | cons c csL2 =>
      obtain ⟨hsym, hcs2⟩ := (symChunks_cons_iff c csL2).mp hcsL
      have hbc : AllBytes c := fun x hx => hbL x (by
        rw [List.flatten_cons]
        exact List.mem_append.mpr (Or.inl hx))
      obtain ⟨b0, t, hc, hb0aux, hlenb0, htaux⟩ := isSym_shape c hbc hsym
      have hcpos : 0 < c.length := isSym_length_pos c hsym
      have hflat : (c :: csL2).flatten = c ++ csL2.flatten := by simp
      have hlt : i < total := by
        have := congrArg List.length hdrop
        simp only [List.length_drop, hflat, List.length_append] at this
        omega
      have hgd : data.getD i 0 = b0 := by
        have := getD_of_drop data i c (csL2.flatten ++ pad ++ csa.flatten)
          (by rw [hdrop, hflat]; simp [List.append_assoc]) 0 hcpos
        rw [Nat.add_zero] at this
        rw [this, hc]
        rfl
      simp only [absLoop]
      rw [if_pos hlt, hgd, hlenb0]
      have hdrop2 : data.drop (i + c.length) = csL2.flatten ++ pad ++ csa.flatten := by
        rw [← drop_drop_add, hdrop, hflat]
        rw [List.append_assoc, List.append_assoc, List.drop_left, ← List.append_assoc]
      cases csL2 with
      | nil =>
        have hjump : i + c.length = go := by
          rw [← hgo, hflat]
          simp
        rw [if_pos hjump, hjump]
        have hdropga : data.drop (go + gl) = csa.flatten := by
          have : data.drop (go + gl) = ((data.drop (i + c.length)).drop gl) := by
            rw [drop_drop_add, hjump]
          rw [this, hdrop2]
          simp only [List.flatten_nil, List.nil_append]
          rw [← hpad, List.drop_left]
        rw [absLoop_after num csa data total go gl (go + gl) hcsa hba hlen hdropga (by omega)]
        rw [if_neg (by simp)]
        simp
      | cons c2 csL3 =>
        have hne2 : (c2 :: csL3).flatten.length > 0 := by
          have hsym2 : IsSym c2 := hcs2 c2 (by simp)
          have := isSym_length_pos c2 hsym2
          simp only [List.flatten_cons, List.length_append]
          omega
        have hnojump : ¬ i + c.length = go := by
          rw [← hgo, hflat]
          simp only [List.length_append]
          omega
        rw [if_neg hnojump]
        have hgo2 : i + c.length + (c2 :: csL3).flatten.length = go := by
          rw [← hgo, hflat]
          simp only [List.length_append]
          omega
        rw [ih (c2 :: csL3) csa pad data total go gl (i + c.length) hcs2 hcsa
          (fun x hx => hbL x (by rw [hflat]; exact List.mem_append.mpr (Or.inr hx)))
          hba hlen hpad hdrop2 hgo2 (by simp)]
        by_cases hnum : num < (c2 :: csL3).length
        · have hc1 : num + 1 < (c :: c2 :: csL3).length := by
            simp only [List.length_cons] at hnum ⊢
            omega
          rw [if_pos hnum, if_pos hc1]
          rw [List.take_succ_cons, List.flatten_cons, List.length_append]
          omega
        · have hc1 : ¬ (num + 1 < (c :: c2 :: csL3).length) := by
            simp only [List.length_cons] at hnum ⊢
            omega
          rw [if_neg hnum, if_neg hc1]
          have hc2 : num + 1 - (c :: c2 :: csL3).length = num - (c2 :: csL3).length := by
            simp only [List.length_cons]
            omega
          rw [hc2]

/- ===== Gap motion primitives ===== -/

theorem moveBytesAfterGap_spec (b : GapBuffer) (num : Nat)
    (hlen : b.data.length = b.total) (hgeom : b.gap_offset + b.gap_length ≤ b.total)
    (hnum : num ≤ b.gap_offset) :
    ∃ b2, moveBytesAfterGap b num = some b2 ∧
      b2.is_static = b.is_static ∧ b2.no_resize = b.no_resize ∧
      b2.gap_offset = b.gap_offset - num ∧ b2.gap_length = b.gap_length ∧
      b2.total = b.total ∧ b2.data.length = b.total ∧
      (∀ x ∈ b2.data, x ∈ b.data) ∧
      getStringBeforeGap b2 = (getStringBeforeGap b).take (b.gap_offset - num) ∧
      getStringAfterGap b2 =
        (getStringBeforeGap b).drop (b.gap_offset - num) ++ getStringAfterGap b := by
  have hgo : b.gap_offset ≤ b.total := by omega
  refine ⟨⟨b.is_static, b.no_resize, b.gap_offset - num, b.gap_length, b.total,
    memmoveList b.data (b.gap_offset + b.gap_length - num) (b.gap_offset - num) num⟩,
    ?_, rfl, rfl, rfl, rfl, rfl, ?_, ?_, ?_, ?_⟩
  · rw [moveBytesAfterGap, if_pos ⟨hnum, hgo, hgeom⟩]
  · show (memmoveList b.data (b.gap_offset + b.gap_length - num) (b.gap_offset - num)
      num).length = b.total
    rw [memmoveList]
    simp only [List.length_append, List.length_take, List.length_drop]
    omega
  · intro x hx
    rw [memmoveList] at hx
    rcases List.mem_append.mp hx with h1 | h1
    · rcases List.mem_append.mp h1 with h2 | h2
      · exact List.take_subset _ _ h2
      · exact List.drop_subset _ _ (List.take_subset _ _ h2)
    · exact List.drop_subset _ _ h1
  · show (memmoveList b.data (b.gap_offset + b.gap_length - num) (b.gap_offset - num)
      num).take (b.gap_offset - num) = (b.data.take b.gap_offset).take (b.gap_offset - num)
    rw [memmoveList, List.append_assoc,
      List.take_append_of_le_length (by rw [List.length_take]; omega),
      List.take_take, List.take_take]
    congr 1
    omega
  · show (memmoveList b.data (b.gap_offset + b.gap_length - num) (b.gap_offset - num)
      num).drop (b.gap_offset - num + b.gap_length) =
      (b.data.take b.gap_offset).drop (b.gap_offset - num) ++ b.data.drop (b.gap_offset + b.gap_length)
    rw [memmoveList, List.append_assoc]
    have h1 : b.gap_offset - num + b.gap_length =
        (b.data.take (b.gap_offset + b.gap_length - num)).length := by
      rw [List.length_take]
      omega
    rw [h1, List.drop_left]
    have h2 : (b.data.take b.gap_offset).drop (b.gap_offset - num) =
        (b.data.drop (b.gap_offset - num)).take num := by
      rw [List.drop_take]
      congr 1
      omega
    rw [h2]
    congr 2
    omega

theorem moveBytesBeforeGap_spec (b : GapBuffer) (num : Nat)
    (hlen : b.data.length = b.total) (hgeom : b.gap_offset + b.gap_length ≤ b.total)
    (hnum : num ≤ b.total - b.gap_offset - b.gap_length) :
    ∃ b2, moveBytesBeforeGap b num = some b2 ∧
      b2.is_static = b.is_static ∧ b2.no_resize = b.no_resize ∧
      b2.gap_offset = b.gap_offset + num ∧ b2.gap_length = b.gap_length ∧
      b2.total = b.total ∧ b2.data.length = b.total ∧
      (∀ x ∈ b2.data, x ∈ b.data) ∧
      getStringBeforeGap b2 = getStringBeforeGap b ++ (getStringAfterGap b).take num ∧
      getStringAfterGap b2 = (getStringAfterGap b).drop num := by
  have hgo : b.gap_offset ≤ b.total := by omega
  refine ⟨⟨b.is_static, b.no_resize, b.gap_offset + num, b.gap_length, b.total,
    memmoveList b.data b.gap_offset (b.gap_offset + b.gap_length) num⟩,
    ?_, rfl, rfl, rfl, rfl, rfl, ?_, ?_, ?_, ?_⟩
  · rw [moveBytesBeforeGap, if_pos ⟨hnum, hgo, hgeom⟩]
  · show (memmoveList b.data b.gap_offset (b.gap_offset + b.gap_length)
      num).length = b.total
    rw [memmoveList]
    simp only [List.length_append, List.length_take, List.length_drop]
    omega
  · intro x hx
    rw [memmoveList] at hx
    rcases List.mem_append.mp hx with h1 | h1
    · rcases List.mem_append.mp h1 with h2 | h2
      · exact List.take_subset _ _ h2
      · exact List.drop_subset _ _ (List.take_subset _ _ h2)
    · exact List.drop_subset _ _ h1
  · show (memmoveList b.data b.gap_offset (b.gap_offset + b.gap_length)
      num).take (b.gap_offset + num) =
      b.data.take b.gap_offset ++ (b.data.drop (b.gap_offset + b.gap_length)).take num
    rw [memmoveList]
    have h1 : b.gap_offset + num = (b.data.take b.gap_offset ++
        (b.data.drop (b.gap_offset + b.gap_length)).take num).length := by
      simp only [List.length_append, List.length_take, List.length_drop]
      omega
    rw [h1, List.take_left]
  · show (memmoveList b.data b.gap_offset (b.gap_offset + b.gap_length)
      num).drop (b.gap_offset + num + b.gap_length) =
      (b.data.drop (b.gap_offset + b.gap_length)).drop num
    rw [memmoveList]
    have h1 : b.gap_offset + num + b.gap_length = (b.data.take b.gap_offset ++
        (b.data.drop (b.gap_offset + b.gap_length)).take num).length + b.gap_length := by
      simp only [List.length_append, List.length_take, List.length_drop]
      omega
    rw [h1, List.drop_append]
    rw [drop_drop_add, drop_drop_add]
    congr 1
    omega

/- ===== Growth and insertion ===== -/

theorem growGap_spec (b : GapBuffer) (min : Nat)
    (hlen : b.data.length = b.total) (hgeom : b.gap_offset + b.gap_length ≤ b.total) :
    ∃ b2, growGap true b min = some b2 ∧
      b2.is_static = false ∧ b2.no_resize = false ∧
      b2.gap_offset = b.gap_offset ∧
      b2.total = max (2 * b.total) (b.total + min) ∧
      b2.gap_length = b2.total - b.gap_offset - (getStringAfterGap b).length ∧
      b2.data.length = b2.total ∧
      (∀ x ∈ b2.data, x ∈ b.data ∨ x = 0) ∧
      getStringBeforeGap b2 = getStringBeforeGap b ∧
      getStringAfterGap b2 = getStringAfterGap b ∧
      b.gap_length + min ≤ b2.gap_length := by
  have hgo : b.gap_offset ≤ b.total := by omega
  have hcap : b.total + min ≤ max (2 * b.total) (b.total + min) := le_max_right _ _
  have hblen : (getStringBeforeGap b).length = b.gap_offset := by
    rw [getStringBeforeGap, List.length_take]
    omega
  have halen : (getStringAfterGap b).length = b.total - b.gap_offset - b.gap_length := by
    rw [getStringAfterGap, List.length_drop]
    omega
  set cap := max (2 * b.total) (b.total + min) with hcapdef
  refine ⟨⟨false, false, b.gap_offset, cap - b.gap_offset - (getStringAfterGap b).length, cap,
    getStringBeforeGap b ++
      List.replicate (cap - (getStringAfterGap b).length - b.gap_offset) 0 ++
      getStringAfterGap b⟩, ?_, rfl, rfl, rfl, rfl, rfl, ?_, ?_, ?_, ?_, ?_⟩
  · rw [growGap, if_pos rfl]
    rw [insertBytesBeforeCursorNoGrow, GapBuffer_create]
    rw [if_neg (by simp only [List.length_replicate]; omega)]
    simp only [Option.some_bind]
    rw [insertBytesAfterCursorNoGrow]
    rw [if_neg (by simp only [List.length_replicate]; omega)]
    have hm1 : memcpyAt (List.replicate cap 0) 0 (getStringBeforeGap b) =
        getStringBeforeGap b ++ List.replicate (cap - b.gap_offset) 0 := by
      rw [memcpyAt, List.take_zero, List.nil_append, Nat.zero_add, List.drop_replicate, hblen]
    have hm2 : memcpyAt (getStringBeforeGap b ++ List.replicate (cap - b.gap_offset) 0)
        (0 + (getStringBeforeGap b).length + (cap - (getStringBeforeGap b).length) -
          (getStringAfterGap b).length) (getStringAfterGap b) =
        getStringBeforeGap b ++
          List.replicate (cap - (getStringAfterGap b).length - b.gap_offset) 0 ++
          getStringAfterGap b := by
      rw [memcpyAt]
      have hl1 : (getStringBeforeGap b ++ List.replicate (cap - b.gap_offset) 0).length
          = cap := by
        simp only [List.length_append, List.length_replicate, hblen]
        omega
      have harith : 0 + (getStringBeforeGap b).length +
          (cap - (getStringBeforeGap b).length) - (getStringAfterGap b).length +
          (getStringAfterGap b).length = cap := by
        rw [hblen]
        omega
      rw [harith]
      have hdrop0 : (getStringBeforeGap b ++ List.replicate (cap - b.gap_offset) 0).drop cap
          = [] := List.drop_of_length_le (by rw [hl1])
      rw [hdrop0, List.append_nil]
      have harith2 : 0 + (getStringBeforeGap b).length +
          (cap - (getStringBeforeGap b).length) - (getStringAfterGap b).length =
          cap - (getStringAfterGap b).length := by
        rw [hblen]
        omega
      rw [harith2]
      have htk : (getStringBeforeGap b ++ List.replicate (cap - b.gap_offset) 0).take
          (cap - (getStringAfterGap b).length) =
          getStringBeforeGap b ++
            List.replicate (cap - (getStringAfterGap b).length - b.gap_offset) 0 := by
        rw [show cap - (getStringAfterGap b).length =
          (getStringBeforeGap b).length + (cap - (getStringAfterGap b).length - b.gap_offset)
          by rw [hblen]; omega]
        rw [List.take_append, List.take_replicate]
        congr 2
        omega
      rw [htk, List.append_assoc]
    rw [hm1, hm2]
    simp only [Option.some.injEq, GapBuffer.mk.injEq, hblen]
    constructor
    · trivial
    · simp
  · show (getStringBeforeGap b ++
        List.replicate (cap - (getStringAfterGap b).length - b.gap_offset) 0 ++
        getStringAfterGap b).length = cap
    simp only [List.length_append, List.length_replicate, hblen]
    omega
  · intro x hx
    rcases List.mem_append.mp hx with h1 | h1
    · rcases List.mem_append.mp h1 with h2 | h2
      · exact Or.inl (List.take_subset _ _ h2)
      · exact Or.inr (List.eq_of_mem_replicate h2)
    · exact Or.inl (List.drop_subset _ _ h1)
  · show (getStringBeforeGap b ++
        List.replicate (cap - (getStringAfterGap b).length - b.gap_offset) 0 ++
        getStringAfterGap b).take b.gap_offset = getStringBeforeGap b
    rw [List.append_assoc, ← hblen, List.take_left]
  · show (getStringBeforeGap b ++
        List.replicate (cap - (getStringAfterGap b).length - b.gap_offset) 0 ++
        getStringAfterGap b).drop
          (b.gap_offset + (cap - b.gap_offset - (getStringAfterGap b).length)) =
        getStringAfterGap b
    have h1 : b.gap_offset + (cap - b.gap_offset - (getStringAfterGap b).length) =
        (getStringBeforeGap b ++
          List.replicate (cap - (getStringAfterGap b).length - b.gap_offset) 0).length := by
      simp only [List.length_append, List.length_replicate, hblen]
      omega
    rw [h1, List.drop_left]
  · show b.gap_length + min ≤ cap - b.gap_offset - (getStringAfterGap b).length
    omega

theorem ensureSpace_enough (allocOk : Bool) (b : GapBuffer) (min : Nat)
    (h : min ≤ b.gap_length) : ensureSpace allocOk b min = (true, b) := by
  rw [ensureSpace, if_neg (by omega)]

theorem ensureSpace_noResize (allocOk : Bool) (b : GapBuffer) (min : Nat)
    (h : b.gap_length < min) (hnr : b.no_resize = true) :
    ensureSpace allocOk b min = (false, b) := by
  rw [ensureSpace, if_pos h, hnr, if_pos rfl]

theorem ensureSpace_allocFail (b : GapBuffer) (min : Nat)
    (h : b.gap_length < min) (hnr : b.no_resize = false) :
    ensureSpace false b min = (false, b) := by
  rw [ensureSpace, if_pos h, hnr]
  simp only [Bool.false_eq_true, if_false]
  rw [growGap]
  simp

theorem ensureSpace_grow (b : GapBuffer) (min : Nat)
    (h : b.gap_length < min) (hnr : b.no_resize = false)
    (hlen : b.data.length = b.total) (hgeom : b.gap_offset + b.gap_length ≤ b.total) :
    ∃ b2, ensureSpace true b min = (true, b2) ∧
      b2.is_static = false ∧ b2.no_resize = false ∧
      b2.gap_offset = b.gap_offset ∧
      b2.total = max (2 * b.total) (b.total + min) ∧
      b2.gap_length = b2.total - b.gap_offset - (getStringAfterGap b).length ∧
      b2.data.length = b2.total ∧
      (∀ x ∈ b2.data, x ∈ b.data ∨ x = 0) ∧
      getStringBeforeGap b2 = getStringBeforeGap b ∧
      getStringAfterGap b2 = getStringAfterGap b ∧
      b.gap_length + min ≤ b2.gap_length := by
  obtain ⟨b2, hb2, hrest⟩ := growGap_spec b min hlen hgeom
  refine ⟨b2, ?_, hrest⟩
  rw [ensureSpace, if_pos h, hnr]
  simp only [Bool.false_eq_true, if_false]
  rw [hb2]

theorem memcpy_insert_fields (b : GapBuffer) (str : List Nat)
    (hlen : b.data.length = b.total) (hgeom : b.gap_offset + b.gap_length ≤ b.total)
    (hfit : str.length ≤ b.gap_length) :
    (memcpyAt b.data b.gap_offset str).length = b.total ∧
    (memcpyAt b.data b.gap_offset str).take (b.gap_offset + str.length) =
      getStringBeforeGap b ++ str ∧
    (memcpyAt b.data b.gap_offset str).drop
      (b.gap_offset + str.length + (b.gap_length - str.length)) = getStringAfterGap b ∧
    (∀ x ∈ memcpyAt b.data b.gap_offset str, x ∈ b.data ∨ x ∈ str) := by
  have hgo : b.gap_offset ≤ b.total := by omega
  refine ⟨?_, ?_, ?_, ?_⟩
  · rw [memcpyAt]
    simp only [List.length_append, List.length_take, List.length_drop]
    omega
  · rw [memcpyAt]
    have h1 : b.gap_offset + str.length =
        (b.data.take b.gap_offset ++ str).length := by
      simp only [List.length_append, List.length_take]
      omega
    rw [h1, List.take_left]
    rfl
  · rw [memcpyAt]
    have h1 : b.gap_offset + str.length + (b.gap_length - str.length) =
        (b.data.take b.gap_offset ++ str).length + (b.gap_length - str.length) := by
      simp only [List.length_append, List.length_take]
      omega
    rw [h1, List.drop_append, drop_drop_add]
    rw [getStringAfterGap]
    congr 1
    omega

  · intro x hx
    rw [memcpyAt] at hx
    rcases List.mem_append.mp hx with h1 | h1
    · rcases List.mem_append.mp h1 with h2 | h2
      · exact Or.inl (List.take_subset _ _ h2)
      · exact Or.inr h2
    · exact Or.inl (List.drop_subset _ _ h1)

theorem insertBytesBeforeCursor_noGrow_spec (allocOk : Bool) (b : GapBuffer) (str : List Nat)
    (hfit : str.length ≤ b.gap_length) :
    insertBytesBeforeCursor allocOk b str =
      (true, { b with data := memcpyAt b.data b.gap_offset str,
                      gap_offset := b.gap_offset + str.length,
                      gap_length := b.gap_length - str.length }) := by
  rw [insertBytesBeforeCursor, ensureSpace_enough allocOk b str.length hfit]

theorem insertString_invalid (allocOk : Bool) (b : GapBuffer) (str : List Nat)
    (h : validLoop str = false) :
    GapBuffer_insertString allocOk b str = (false, b) := by
  rw [GapBuffer_insertString, h, if_neg (by decide)]

theorem insertString_noResize (allocOk : Bool) (b : GapBuffer) (str : List Nat)
    (hv : validLoop str = true) (hfit : b.gap_length < str.length)
    (hnr : b.no_resize = true) :
    GapBuffer_insertString allocOk b str = (false, b) := by
  rw [GapBuffer_insertString, hv, if_pos rfl, insertBytesBeforeCursor,
    ensureSpace_noResize allocOk b str.length hfit hnr]

theorem insertString_allocFail (b : GapBuffer) (str : List Nat)
    (hv : validLoop str = true) (hfit : b.gap_length < str.length)
    (hnr : b.no_resize = false) :
    GapBuffer_insertString false b str = (false, b) := by
  rw [GapBuffer_insertString, hv, if_pos rfl, insertBytesBeforeCursor,
    ensureSpace_allocFail b str.length hfit hnr]

theorem insertString_noGrow (allocOk : Bool) (b : GapBuffer) (str : List Nat)
    (hv : validLoop str = true) (hfit : str.length ≤ b.gap_length) :
    GapBuffer_insertString allocOk b str =
      (true, { b with data := memcpyAt b.data b.gap_offset str,
                      gap_offset := b.gap_offset + str.length,
                      gap_length := b.gap_length - str.length }) := by
  rw [GapBuffer_insertString, hv, if_pos rfl,
    insertBytesBeforeCursor_noGrow_spec allocOk b str hfit]

/-- Full characterisation of a successful insertion: the bytes land right
before the cursor, the after-gap region is untouched. -/
theorem insertString_success_spec (allocOk : Bool) (b : GapBuffer) (str : List Nat)
    (hlen : b.data.length = b.total) (hgeom : b.gap_offset + b.gap_length ≤ b.total)
    (hv : validLoop str = true)
    (havail : str.length ≤ b.gap_length ∨ (b.no_resize = false ∧ allocOk = true)) :
    ∃ b2, GapBuffer_insertString allocOk b str = (true, b2) ∧
      b2.gap_offset = b.gap_offset + str.length ∧
      b2.data.length = b2.total ∧
      b2.gap_offset + b2.gap_length ≤ b2.total ∧
      b2.no_resize = b.no_resize ∧
      (∀ x ∈ b2.data, x ∈ b.data ∨ x ∈ str ∨ x = 0) ∧
      getStringBeforeGap b2 = getStringBeforeGap b ++ str ∧
      getStringAfterGap b2 = getStringAfterGap b ∧
      (str.length ≤ b.gap_length →
        b2.total = b.total ∧ b2.gap_length = b.gap_length - str.length) ∧
      (b.gap_length < str.length →
        b2.total = max (2 * b.total) (b.total + str.length) ∧
        b2.gap_length = b2.total - (b.total - b.gap_length) - str.length) := by
  have hba2 : (getStringAfterGap b).length = b.total - b.gap_offset - b.gap_length := by
    rw [getStringAfterGap, List.length_drop, hlen]
    omega
  by_cases hfit : str.length ≤ b.gap_length
  · obtain ⟨hl2, htk, hdr, hmem⟩ := memcpy_insert_fields b str hlen hgeom hfit
    refine ⟨_, insertString_noGrow allocOk b str hv hfit, rfl, ?_, ?_, rfl, ?_, ?_, ?_, ?_, ?_⟩
    · show (memcpyAt b.data b.gap_offset str).length = b.total
      exact hl2
    · show b.gap_offset + str.length + (b.gap_length - str.length) ≤ b.total
      omega
    · intro x hx
      rcases hmem x hx with h1 | h1
      · exact Or.inl h1
      · exact Or.inr (Or.inl h1)
    · exact htk
    · exact hdr
    · exact fun _ => ⟨rfl, rfl⟩
    · intro hcon
      omega
  · rcases havail with h1 | ⟨hnr, hok⟩
    · omega
    subst hok
    have hlt : b.gap_length < str.length := by omega
    obtain ⟨bg, hbg, hst, hnrg, hgog, htotg, hglg, hleng, hmemg, hbefg, haftg, hspaceg⟩ :=
      ensureSpace_grow b str.length hlt hnr hlen hgeom
    have hfit2 : str.length ≤ bg.gap_length := by omega
    have hcapge : b.total + str.length ≤ bg.total := by
      rw [htotg]
      exact le_max_right _ _
    have hgeomg : bg.gap_offset + bg.gap_length ≤ bg.total := by
      rw [hgog, hglg]
      omega
    obtain ⟨hl2, htk, hdr, hmem⟩ := memcpy_insert_fields bg str hleng hgeomg hfit2
    have hins : GapBuffer_insertString true b str =
        (true, { bg with data := memcpyAt bg.data bg.gap_offset str,
                         gap_offset := bg.gap_offset + str.length,
                         gap_length := bg.gap_length - str.length }) := by
      rw [GapBuffer_insertString, hv, if_pos rfl, insertBytesBeforeCursor, hbg]
    refine ⟨_, hins, ?_, ?_, ?_, ?_, ?_, ?_, ?_, ?_, ?_⟩
    · show bg.gap_offset + str.length = b.gap_offset + str.length
      rw [hgog]
    · show (memcpyAt bg.data bg.gap_offset str).length = bg.total
      exact hl2
    · show bg.gap_offset + str.length + (bg.gap_length - str.length) ≤ bg.total
      omega
    · show bg.no_resize = b.no_resize
      rw [hnrg, hnr]
    · intro x hx
      rcases hmem x hx with h1 | h1
      · rcases hmemg x h1 with h2 | h2
        · exact Or.inl h2
        · exact Or.inr (Or.inr h2)
      · exact Or.inr (Or.inl h1)
    · show (memcpyAt bg.data bg.gap_offset str).take (bg.gap_offset + str.length)
        = getStringBeforeGap b ++ str
      rw [htk, hbefg]
    · show (memcpyAt bg.data bg.gap_offset str).drop
        (bg.gap_offset + str.length + (bg.gap_length - str.length)) = getStringAfterGap b
      rw [hdr, haftg]
    · intro hcon
      omega
    · intro _
      refine ⟨htotg, ?_⟩
      show bg.gap_length - str.length = bg.total - (b.total - b.gap_length) - str.length
      rw [hglg]
      omega

/- ===== Operation specifications under the invariant ===== -/

theorem allBytes_take (l : List Nat) (n : Nat) (h : AllBytes l) : AllBytes (l.take n) :=
  fun x hx => h x (List.take_subset n l hx)

theorem allBytes_drop (l : List Nat) (n : Nat) (h : AllBytes l) : AllBytes (l.drop n) :=
  fun x hx => h x (List.drop_subset n l hx)

theorem bufInv_chunks (b : GapBuffer) (h : BufInv b) :
    ∃ csb csa, SymChunks csb ∧ SymChunks csa ∧
      getStringBeforeGap b = csb.flatten ∧ getStringAfterGap b = csa.flatten ∧
      AllBytes csb.flatten ∧ AllBytes csa.flatten ∧
      (getStringBeforeGap b).length = b.gap_offset ∧
      (getStringAfterGap b).length = b.total - b.gap_offset - b.gap_length := by
  obtain ⟨hlen, hgeom, hbytes, hvb, hva⟩ := h
  obtain ⟨csb, hcsb, hfb⟩ := valid_chunks _ hvb
  obtain ⟨csa, hcsa, hfa⟩ := valid_chunks _ hva
  refine ⟨csb, csa, hcsb, hcsa, hfb, hfa, ?_, ?_, ?_, ?_⟩
  · rw [← hfb]
    exact allBytes_take _ _ hbytes
  · rw [← hfa]
    exact allBytes_drop _ _ hbytes
  · rw [getStringBeforeGap, List.length_take]
    omega
  · rw [getStringAfterGap, List.length_drop]
    omega

theorem flatten_take_length_le (cs : List (List Nat)) (k : Nat) :
    (cs.take k).flatten.length ≤ cs.flatten.length := by
  conv =>
    rhs
    rw [show cs.flatten = (cs.take k).flatten ++ (cs.drop k).flatten by
      rw [← List.flatten_append, List.take_append_drop]]
  rw [List.length_append]
  omega

theorem symChunks_flatten_nil (cs : List (List Nat)) (h : SymChunks cs)
    (hlen : cs.flatten.length = 0) : cs = [] := by
  cases cs with
  | nil => rfl
  | cons c cs2 =>
    obtain ⟨hsym, _⟩ := (symChunks_cons_iff c cs2).mp h
    have := isSym_length_pos c hsym
    rw [List.flatten_cons, List.length_append] at hlen
    omega

/-- getFollowingSymbol advances over exactly min num (count) whole symbols. -/
theorem getFollowingSymbol_spec (b : GapBuffer) (num : Nat) (hInv : BufInv b)
    (csa : List (List Nat)) (hcsa : SymChunks csa)
    (hfa : getStringAfterGap b = csa.flatten) :
    getFollowingSymbol b num = b.gap_offset + b.gap_length + (csa.take num).flatten.length := by
  obtain ⟨hlen, hgeom, hbytes, _, _⟩ := hInv
  rw [getFollowingSymbol]
  exact follLoop_spec num csa b.data b.total (b.gap_offset + b.gap_length) hcsa
    (by rw [← hfa, getStringAfterGap]; exact allBytes_drop _ _ hbytes) hlen
    (by rw [← hfa]; rfl)

/-- getPrecedingSymbol never hits its assert and recedes over exactly
min num (count) whole symbols. -/
theorem getPrecedingSymbol_spec (b : GapBuffer) (num : Nat) (hInv : BufInv b)
    (csb : List (List Nat)) (hcsb : SymChunks csb)
    (hfb : getStringBeforeGap b = csb.flatten) :
    getPrecedingSymbol b num = some ((csb.take (csb.length - num)).flatten.length) := by
  obtain ⟨hlen, hgeom, hbytes, _, _⟩ := hInv
  have hblen : (getStringBeforeGap b).length = b.gap_offset := by
    rw [getStringBeforeGap, List.length_take]
    omega
  rw [getPrecedingSymbol, show b.gap_offset = csb.flatten.length by rw [← hfb, hblen]]
  exact precLoop_spec num csb b.data hcsb
    (by rw [← hfb, getStringBeforeGap]; exact allBytes_take _ _ hbytes)
    (by rw [← hfb, hblen]; rfl)

theorem removeForwards_spec (b : GapBuffer) (num : Nat) (hInv : BufInv b) :
    BufInv (GapBuffer_removeForwards b num) ∧
    (GapBuffer_removeForwards b num).gap_offset = b.gap_offset ∧
    (GapBuffer_removeForwards b num).total = b.total ∧
    (GapBuffer_removeForwards b num).data = b.data ∧
    (GapBuffer_removeForwards b num).no_resize = b.no_resize ∧
    getStringBeforeGap (GapBuffer_removeForwards b num) = getStringBeforeGap b ∧
    getStringAfterGap (GapBuffer_removeForwards b num) =
      dropSyms num (getStringAfterGap b) ∧
    countSyms (getStringAfterGap (GapBuffer_removeForwards b num)) =
      countSyms (getStringAfterGap b) - num := by
  obtain ⟨csb, csa, hcsb, hcsa, hfb, hfa, hbb, hba, hblen, halen⟩ := bufInv_chunks b hInv
  have hfoll := getFollowingSymbol_spec b num hInv csa hcsa hfa
  obtain ⟨hlen, hgeom, hbytes, hvb, hva⟩ := hInv
  have htl : (csa.take num).flatten.length ≤ csa.flatten.length := flatten_take_length_le csa num
  have hcsal : csa.flatten.length = b.total - b.gap_offset - b.gap_length := by
    rw [← hfa, halen]
  have hb2 : GapBuffer_removeForwards b num =
      { b with gap_length := getFollowingSymbol b num - b.gap_offset } := rfl
  rw [hb2, hfoll]
  have hgl2 : b.gap_offset + b.gap_length + (csa.take num).flatten.length - b.gap_offset
      = b.gap_length + (csa.take num).flatten.length := by omega
  have hafter : getStringAfterGap { b with gap_length :=
      b.gap_offset + b.gap_length + (csa.take num).flatten.length - b.gap_offset } =
      (csa.drop num).flatten := by
    rw [getStringAfterGap]
    show b.data.drop (b.gap_offset + (b.gap_offset + b.gap_length +
      (csa.take num).flatten.length - b.gap_offset)) = _
    rw [show b.gap_offset + (b.gap_offset + b.gap_length +
      (csa.take num).flatten.length - b.gap_offset) =
      (b.gap_offset + b.gap_length) + (csa.take num).flatten.length by omega]
    rw [← drop_drop_add]
    show (getStringAfterGap b).drop (csa.take num).flatten.length = _
    rw [hfa, flatten_drop_of_flatten]
  refine ⟨⟨hlen, by simp only; omega, hbytes, hvb, ?_⟩, rfl, rfl, rfl, rfl, rfl, ?_, ?_⟩
  · rw [hafter]
    exact validLoop_symFlatten _ fun c hc => hcsa c (List.drop_subset _ _ hc)
  · rw [hafter, hfa, dropSyms_symFlatten num csa hcsa]
  · rw [hafter, hfa, countSyms_symFlatten _ (fun c hc => hcsa c (List.drop_subset _ _ hc)),
      countSyms_symFlatten _ hcsa, List.length_drop]

theorem removeBackwards_spec (b : GapBuffer) (num : Nat) (hInv : BufInv b) :
    ∃ b2, GapBuffer_removeBackwards b num = some b2 ∧ BufInv b2 ∧
      b2.total = b.total ∧ b2.data = b.data ∧ b2.no_resize = b.no_resize ∧
      getStringAfterGap b2 = getStringAfterGap b ∧
      getStringBeforeGap b2 =
        takeSyms (countSyms (getStringBeforeGap b) - num) (getStringBeforeGap b) ∧
      countSyms (getStringBeforeGap b2) = countSyms (getStringBeforeGap b) - num ∧
      b2.gap_offset = (getStringBeforeGap b2).length := by
  obtain ⟨csb, csa, hcsb, hcsa, hfb, hfa, hbb, hba, hblen, halen⟩ := bufInv_chunks b hInv
  have hprec := getPrecedingSymbol_spec b num hInv csb hcsb hfb
  obtain ⟨hlen, hgeom, hbytes, hvb, hva⟩ := hInv
  set k := csb.length - num with hk
  set i := (csb.take k).flatten.length with hi
  have hile : i ≤ b.gap_offset := by
    rw [hi, ← hblen, hfb]
    exact flatten_take_length_le csb k
  have hbef2 : b.data.take i = (csb.take k).flatten := by
    have h1 : b.data.take i = (b.data.take b.gap_offset).take i := by
      rw [List.take_take]
      congr 1
      omega
    rw [h1]
    show (getStringBeforeGap b).take i = _
    rw [hfb, hi, flatten_take_of_flatten]
  refine ⟨{ b with gap_length := b.gap_length + (b.gap_offset - i), gap_offset := i },
    ?_, ?_, rfl, rfl, rfl, ?_, ?_, ?_, ?_⟩
  · rw [GapBuffer_removeBackwards, hprec]
    rfl
  · refine ⟨hlen, by simp only; omega, hbytes, ?_, ?_⟩
    · show validLoop (b.data.take i) = true
      rw [hbef2]
      exact validLoop_symFlatten _ fun c hc => hcsb c (List.take_subset _ _ hc)
    · show validLoop (b.data.drop (i + (b.gap_length + (b.gap_offset - i)))) = true
      rw [show i + (b.gap_length + (b.gap_offset - i)) = b.gap_offset + b.gap_length by omega]
      exact hva
  · show b.data.drop (i + (b.gap_length + (b.gap_offset - i))) = getStringAfterGap b
    rw [show i + (b.gap_length + (b.gap_offset - i)) = b.gap_offset + b.gap_length by omega]
    rfl
  · show b.data.take i = takeSyms (countSyms (getStringBeforeGap b) - num) (getStringBeforeGap b)
    rw [hbef2, hfb, countSyms_symFlatten csb hcsb, takeSyms_symFlatten _ csb hcsb]
  · show countSyms (b.data.take i) = countSyms (getStringBeforeGap b) - num
    rw [hbef2, hfb, countSyms_symFlatten csb hcsb,
      countSyms_symFlatten _ (fun c hc => hcsb c (List.take_subset _ _ hc)), List.length_take]
    omega
  · show i = (b.data.take i).length
    rw [List.length_take]
    have : i ≤ b.data.length := by omega
    omega

theorem symChunks_append (a c : List (List Nat)) (ha : SymChunks a) (hc : SymChunks c) :
    SymChunks (a ++ c) := by
  intro x hx
  rcases List.mem_append.mp hx with h1 | h1
  · exact ha x h1
  · exact hc x h1

theorem moveRelative_spec (b : GapBuffer) (off : Int) (hInv : BufInv b) :
    ∃ b2, GapBuffer_moveRelative b off = some b2 ∧ BufInv b2 ∧
      b2.total = b.total ∧ b2.no_resize = b.no_resize ∧
      getStringBeforeGap b2 ++ getStringAfterGap b2 =
        getStringBeforeGap b ++ getStringAfterGap b ∧
      countSyms (getStringBeforeGap b2) =
        (if off < 0 then countSyms (getStringBeforeGap b) - (-off).toNat
         else min (countSyms (getStringBeforeGap b) + off.toNat)
           (countSyms (getStringBeforeGap b) + countSyms (getStringAfterGap b))) := by
  obtain ⟨csb, csa, hcsb, hcsa, hfb, hfa, hbb, hba, hblen, halen⟩ := bufInv_chunks b hInv
  have hInv2 := hInv
  obtain ⟨hlen, hgeom, hbytes, hvb, hva⟩ := hInv2
  by_cases hoff : off < 0
  · -- backward motion
    have hprec := getPrecedingSymbol_spec b (-off).toNat hInv csb hcsb hfb
    set k := csb.length - (-off).toNat with hk
    set i := (csb.take k).flatten.length with hi
    have hile : i ≤ b.gap_offset := by
      rw [hi, ← hblen, hfb]
      exact flatten_take_length_le csb k
    obtain ⟨b2, hb2eq, hstat, hnr, hgo2, hgl2, htot2, hlen2, hmem2, hbef2, haft2⟩ :=
      moveBytesAfterGap_spec b (b.gap_offset - i) hlen hgeom (by omega)
    refine ⟨b2, ?_, ?_, htot2, hnr, ?_, ?_⟩
    · rw [GapBuffer_moveRelative, if_pos hoff, hprec, Option.some_bind]
      exact hb2eq
    · refine ⟨by rw [hlen2, htot2], by omega, fun x hx => hbytes x (hmem2 x hx), ?_, ?_⟩
      · rw [hbef2, show b.gap_offset - (b.gap_offset - i) = i by omega, hfb,
          flatten_take_of_flatten]
        exact validLoop_symFlatten _ fun c hc => hcsb c (List.take_subset _ _ hc)
      · rw [haft2, show b.gap_offset - (b.gap_offset - i) = i by omega, hfb, hi,
          flatten_drop_of_flatten, hfa, ← List.flatten_append]
        exact validLoop_symFlatten _
          (symChunks_append _ _ (fun c hc => hcsb c (List.drop_subset _ _ hc)) hcsa)
    · rw [hbef2, haft2, ← List.append_assoc, List.take_append_drop]
    · rw [if_pos hoff, hbef2, show b.gap_offset - (b.gap_offset - i) = i by omega, hfb,
        flatten_take_of_flatten, countSyms_symFlatten csb hcsb,
        countSyms_symFlatten _ (fun c hc => hcsb c (List.take_subset _ _ hc)),
        List.length_take]
      omega
  · -- forward motion
    have hfoll := getFollowingSymbol_spec b off.toNat hInv csa hcsa hfa
    set m := (csa.take off.toNat).flatten.length with hm
    have hmle : m ≤ b.total - b.gap_offset - b.gap_length := by
      rw [hm, ← halen, hfa]
      exact flatten_take_length_le csa off.toNat
    obtain ⟨b2, hb2eq, hstat, hnr, hgo2, hgl2, htot2, hlen2, hmem2, hbef2, haft2⟩ :=
      moveBytesBeforeGap_spec b m hlen hgeom hmle
    refine ⟨b2, ?_, ?_, htot2, hnr, ?_, ?_⟩
    · rw [GapBuffer_moveRelative, if_neg hoff, hfoll]
      show moveBytesBeforeGap b
        (b.gap_offset + b.gap_length + m - b.gap_offset - b.gap_length) = some b2
      rw [show b.gap_offset + b.gap_length + m - b.gap_offset - b.gap_length = m by omega]
      exact hb2eq
    · refine ⟨by rw [hlen2, htot2], by omega, fun x hx => hbytes x (hmem2 x hx), ?_, ?_⟩
      · rw [hbef2, hfa, hm, flatten_take_of_flatten]
        apply validLoop_append _ _ hvb
        exact validLoop_symFlatten _ fun c hc => hcsa c (List.take_subset _ _ hc)
      · rw [haft2, hfa, hm, flatten_drop_of_flatten]
        exact validLoop_symFlatten _ fun c hc => hcsa c (List.drop_subset _ _ hc)
    · rw [hbef2, haft2, List.append_assoc, List.take_append_drop]
    · rw [if_neg hoff, hbef2, hfa, hm, flatten_take_of_flatten, hfb, ← List.flatten_append,
        countSyms_symFlatten _ (symChunks_append _ _ hcsb
          (fun c hc => hcsa c (List.take_subset _ _ hc))),
        countSyms_symFlatten csb hcsb, countSyms_symFlatten csa hcsa,
        List.length_append, List.length_take]
      omega

theorem flatten_take_len_zero (cs : List (List Nat)) (n : Nat) (h : SymChunks cs)
    (hlen : (cs.take n).flatten.length = 0) : n = 0 ∨ cs = [] := by
  have h1 : cs.take n = [] :=
    symChunks_flatten_nil _ (fun c hc => h c (List.take_subset _ _ hc)) hlen
  exact List.take_eq_nil_iff.mp h1

theorem moveAbsolute_spec (b : GapBuffer) (num : Nat) (hInv : BufInv b) :
    ∃ b2, GapBuffer_moveAbsolute b num = some b2 ∧ BufInv b2 ∧
      b2.total = b.total ∧ b2.no_resize = b.no_resize ∧
      getStringBeforeGap b2 ++ getStringAfterGap b2 =
        getStringBeforeGap b ++ getStringAfterGap b ∧
      countSyms (getStringBeforeGap b2) =
        min num (countSyms (getStringBeforeGap b) + countSyms (getStringAfterGap b)) := by
  obtain ⟨csb, csa, hcsb, hcsa, hfb, hfa, hbb, hba, hblen, halen⟩ := bufInv_chunks b hInv
  have hInv2 := hInv
  obtain ⟨hlen, hgeom, hbytes, hvb, hva⟩ := hInv2
  have hcount : countSyms (getStringBeforeGap b) = csb.length := by
    rw [hfb, countSyms_symFlatten csb hcsb]
  have hcounta : countSyms (getStringAfterGap b) = csa.length := by
    rw [hfa, countSyms_symFlatten csa hcsa]
  have hunf : GapBuffer_moveAbsolute b num =
      (if absLoop b.data b.total b.gap_offset b.gap_length num
          (if 0 < b.gap_offset then 0 else b.gap_length) ≤ b.gap_offset
       then moveBytesAfterGap b (b.gap_offset - absLoop b.data b.total b.gap_offset
         b.gap_length num (if 0 < b.gap_offset then 0 else b.gap_length))
       else moveBytesBeforeGap b (absLoop b.data b.total b.gap_offset b.gap_length num
         (if 0 < b.gap_offset then 0 else b.gap_length) - b.gap_offset - b.gap_length)) := rfl
  by_cases hgo0 : 0 < b.gap_offset
  · -- scan starts at physical 0 and crosses the gap
    have hcsbne : csb ≠ [] := by
      intro hc
      rw [hc] at hfb
      have := congrArg List.length hfb
      rw [hblen] at this
      simp at this
      omega
    have hpadlen : ((b.data.drop b.gap_offset).take b.gap_length).length = b.gap_length := by
      rw [List.length_take, List.length_drop]
      omega
    have hsplit : b.data.drop 0 = csb.flatten ++ (b.data.drop b.gap_offset).take b.gap_length
        ++ csa.flatten := by
      rw [List.drop_zero, ← hfb, ← hfa, List.append_assoc]
      rw [getStringBeforeGap]
      conv =>
        lhs
        rw [← List.take_append_drop b.gap_offset b.data]
      congr 1
      rw [getStringAfterGap]
      conv =>
        lhs
        rw [← List.take_append_drop b.gap_length (b.data.drop b.gap_offset)]
      congr 1
      rw [drop_drop_add]
    have hscan := absLoop_before num csb csa ((b.data.drop b.gap_offset).take b.gap_length)
      b.data b.total b.gap_offset b.gap_length 0 hcsb hcsa hbb hba hlen hpadlen hsplit
      (by rw [← hfb, hblen]; omega) hcsbne
    rw [if_pos hgo0] at hunf
    by_cases hnum : num < csb.length
    · -- lands inside the before region
      rw [if_pos hnum] at hscan
      have hile : (csb.take num).flatten.length ≤ b.gap_offset := by
        rw [← hblen, hfb]
        exact flatten_take_length_le csb num
      obtain ⟨b2, hb2eq, hstat, hnr, hgo2, hgl2, htot2, hlen2, hmem2, hbef2, haft2⟩ :=
        moveBytesAfterGap_spec b (b.gap_offset - (csb.take num).flatten.length) hlen hgeom
          (by omega)
      refine ⟨b2, ?_, ?_, htot2, hnr, ?_, ?_⟩
      · rw [hunf, hscan]
        simp only [Nat.zero_add]
        rw [if_pos (by omega)]
        exact hb2eq
      · refine ⟨by rw [hlen2, htot2], by omega, fun x hx => hbytes x (hmem2 x hx), ?_, ?_⟩
        · rw [hbef2, show b.gap_offset - (b.gap_offset - (csb.take num).flatten.length) =
            (csb.take num).flatten.length by omega, hfb, flatten_take_of_flatten]
          exact validLoop_symFlatten _ fun c hc => hcsb c (List.take_subset _ _ hc)
        · rw [haft2, show b.gap_offset - (b.gap_offset - (csb.take num).flatten.length) =
            (csb.take num).flatten.length by omega, hfb, flatten_drop_of_flatten, hfa,
            ← List.flatten_append]
          exact validLoop_symFlatten _
            (symChunks_append _ _ (fun c hc => hcsb c (List.drop_subset _ _ hc)) hcsa)
      · rw [hbef2, haft2, ← List.append_assoc, List.take_append_drop]
      · rw [hbef2, show b.gap_offset - (b.gap_offset - (csb.take num).flatten.length) =
          (csb.take num).flatten.length by omega, hfb, flatten_take_of_flatten,
          countSyms_symFlatten _ (fun c hc => hcsb c (List.take_subset _ _ hc)),
          List.length_take, countSyms_symFlatten csb hcsb, hcounta]
        omega
    · -- consumes the whole before region, jumps the gap
      rw [if_neg hnum] at hscan
      have hm2le : (csa.take (num - csb.length)).flatten.length ≤
          b.total - b.gap_offset - b.gap_length := by
        rw [← halen, hfa]
        exact flatten_take_length_le csa (num - csb.length)
      by_cases hzero : b.gap_length + (csa.take (num - csb.length)).flatten.length = 0
      · -- gap empty and nothing to move: the computed index equals gap_offset
        obtain ⟨b2, hb2eq, hstat, hnr, hgo2, hgl2, htot2, hlen2, hmem2, hbef2, haft2⟩ :=
          moveBytesAfterGap_spec b (b.gap_offset -
            (b.gap_offset + b.gap_length + (csa.take (num - csb.length)).flatten.length))
            hlen hgeom (by omega)
      -- the move distance is zero
        refine ⟨b2, ?_, ?_, htot2, hnr, ?_, ?_⟩
        · rw [hunf, hscan]
          rw [if_pos (by omega)]
          exact hb2eq
        · refine ⟨by rw [hlen2, htot2], by omega, fun x hx => hbytes x (hmem2 x hx), ?_, ?_⟩
          · rw [hbef2, show b.gap_offset - (b.gap_offset -
              (b.gap_offset + b.gap_length + (csa.take (num - csb.length)).flatten.length)) =
              b.gap_offset by omega]
            rw [List.take_of_length_le (by omega)]
            exact hvb
          · rw [haft2, show b.gap_offset - (b.gap_offset -
              (b.gap_offset + b.gap_length + (csa.take (num - csb.length)).flatten.length)) =
              b.gap_offset by omega]
            rw [List.drop_of_length_le (by omega), List.nil_append]
            exact hva
        · rw [hbef2, haft2, ← List.append_assoc, List.take_append_drop]
        · rw [hbef2, show b.gap_offset - (b.gap_offset -
            (b.gap_offset + b.gap_length + (csa.take (num - csb.length)).flatten.length)) =
            b.gap_offset by omega]
          rw [List.take_of_length_le (by omega), hcount, hcounta]
          rcases flatten_take_len_zero csa (num - csb.length) hcsa (by omega) with h1 | h1
          · omega
          · rw [h1]
            simp only [List.length_nil]
            omega
      · -- the computed index is past the gap: move content before the gap
        obtain ⟨b2, hb2eq, hstat, hnr, hgo2, hgl2, htot2, hlen2, hmem2, hbef2, haft2⟩ :=
          moveBytesBeforeGap_spec b ((csa.take (num - csb.length)).flatten.length) hlen hgeom
            hm2le
        refine ⟨b2, ?_, ?_, htot2, hnr, ?_, ?_⟩
        · rw [hunf, hscan]
          rw [if_neg (by omega)]
          rw [show b.gap_offset + b.gap_length + (csa.take (num - csb.length)).flatten.length -
            b.gap_offset - b.gap_length = (csa.take (num - csb.length)).flatten.length by omega]
          exact hb2eq
        · refine ⟨by rw [hlen2, htot2], by omega, fun x hx => hbytes x (hmem2 x hx), ?_, ?_⟩
          · rw [hbef2, hfa, flatten_take_of_flatten]
            apply validLoop_append _ _ hvb
            exact validLoop_symFlatten _ fun c hc => hcsa c (List.take_subset _ _ hc)
          · rw [haft2, hfa, flatten_drop_of_flatten]
            exact validLoop_symFlatten _ fun c hc => hcsa c (List.drop_subset _ _ hc)
        · rw [hbef2, haft2, List.append_assoc, List.take_append_drop]
        · rw [hbef2, hfa, flatten_take_of_flatten, hfb, ← List.flatten_append,
            countSyms_symFlatten _ (symChunks_append _ _ hcsb
              (fun c hc => hcsa c (List.take_subset _ _ hc))),
            List.length_append, List.length_take, countSyms_symFlatten csb hcsb,
            countSyms_symFlatten csa hcsa]
          omega
  · -- gap_offset = 0: the scan starts just past the gap
    have hgo : b.gap_offset = 0 := by omega
    have hcsbnil : csb = [] := by
      apply symChunks_flatten_nil csb hcsb
      rw [← hfb, hblen, hgo]
    have hbefnil : getStringBeforeGap b = [] := by
      rw [hfb, hcsbnil]
      rfl
    have hscan := absLoop_after num csa b.data b.total b.gap_offset b.gap_length
      b.gap_length hcsa hba hlen
      (by rw [← hfa, getStringAfterGap, hgo, Nat.zero_add]) (by omega)
    by_cases hzero : b.gap_length + (csa.take num).flatten.length = 0
    · obtain ⟨b2, hb2eq, hstat, hnr, hgo2, hgl2, htot2, hlen2, hmem2, hbef2, haft2⟩ :=
        moveBytesAfterGap_spec b (b.gap_offset -
          (b.gap_length + (csa.take num).flatten.length)) hlen hgeom (by omega)
      refine ⟨b2, ?_, ?_, htot2, hnr, ?_, ?_⟩
      · rw [hunf, if_neg hgo0, hscan]
        rw [if_pos (by omega)]
        exact hb2eq
      · refine ⟨by rw [hlen2, htot2], by omega, fun x hx => hbytes x (hmem2 x hx), ?_, ?_⟩
        · rw [hbef2]
          rw [List.take_of_length_le (by omega)]
          exact hvb
        · rw [haft2]
          rw [List.drop_of_length_le (by omega), List.nil_append]
          exact hva
      · rw [hbef2, haft2, ← List.append_assoc, List.take_append_drop]
      · rw [hbef2, List.take_of_length_le (by omega), hbefnil, hfa,
          countSyms_symFlatten csa hcsa]
        have h0 : countSyms ([] : List Nat) = 0 := rfl
        rw [h0]
        rcases flatten_take_len_zero csa num hcsa (by omega) with h1 | h1
        · omega
        · rw [h1]
          simp
    · have hmle2 : (csa.take num).flatten.length ≤ b.total - b.gap_offset - b.gap_length := by
        rw [← halen, hfa]
        exact flatten_take_length_le csa num
      obtain ⟨b2, hb2eq, hstat, hnr, hgo2, hgl2, htot2, hlen2, hmem2, hbef2, haft2⟩ :=
        moveBytesBeforeGap_spec b ((csa.take num).flatten.length) hlen hgeom hmle2
      refine ⟨b2, ?_, ?_, htot2, hnr, ?_, ?_⟩
      · rw [hunf, if_neg hgo0, hscan]
        rw [if_neg (by omega)]
        rw [show b.gap_length + (csa.take num).flatten.length - b.gap_offset - b.gap_length =
          (csa.take num).flatten.length by omega]
        exact hb2eq
      · refine ⟨by rw [hlen2, htot2], by omega, fun x hx => hbytes x (hmem2 x hx), ?_, ?_⟩
        · rw [hbef2, hfa, flatten_take_of_flatten]
          apply validLoop_append _ _ hvb
          exact validLoop_symFlatten _ fun c hc => hcsa c (List.take_subset _ _ hc)
        · rw [haft2, hfa, flatten_drop_of_flatten]
          exact validLoop_symFlatten _ fun c hc => hcsa c (List.drop_subset _ _ hc)
      · rw [hbef2, haft2, List.append_assoc, List.take_append_drop]
      · rw [hbef2, hbefnil, List.nil_append, hfa, flatten_take_of_flatten,
          countSyms_symFlatten _ (fun c hc => hcsa c (List.take_subset _ _ hc)),
          List.length_take, countSyms_symFlatten csa hcsa]
        have h0 : countSyms ([] : List Nat) = 0 := rfl
        rw [h0]
        omega

/- ===== The invariant holds in every reachable state ===== -/

theorem create_inv (capacity : Nat) : BufInv (GapBuffer_create capacity) := by
  refine ⟨by simp [GapBuffer_create], by simp [GapBuffer_create], ?_, ?_, ?_⟩
  · intro x hx
    have := List.eq_of_mem_replicate hx
    omega
  · show validLoop ((List.replicate capacity 0).take 0) = true
    rw [List.take_zero]
    rfl
  · show validLoop ((List.replicate capacity 0).drop (0 + capacity)) = true
    rw [List.drop_of_length_le (by simp)]
    rfl

theorem createUsingMemory_inv (mem : List Nat) (hb : AllBytes mem) :
    BufInv (GapBuffer_createUsingMemory mem) := by
  refine ⟨rfl, by simp [GapBuffer_createUsingMemory], hb, ?_, ?_⟩
  · show validLoop (mem.take 0) = true
    rw [List.take_zero]
    rfl
  · show validLoop (mem.drop (0 + mem.length)) = true
    rw [List.drop_of_length_le (by omega)]
    rfl

theorem insertString_inv (allocOk : Bool) (b : GapBuffer) (str : List Nat)
    (hb : AllBytes str) (hInv : BufInv b) :
    BufInv (GapBuffer_insertString allocOk b str).2 := by
  have hInv2 := hInv
  obtain ⟨hlen, hgeom, hbytes, hvb, hva⟩ := hInv2
  by_cases hv : validLoop str = true
  · by_cases havail : str.length ≤ b.gap_length ∨ (b.no_resize = false ∧ allocOk = true)
    · obtain ⟨b2, heq, hgo2, hlen2, hgeom2, hnr2, hmem2, hbef2, haft2, _, _⟩ :=
        insertString_success_spec allocOk b str hlen hgeom hv havail
      rw [heq]
      refine ⟨hlen2, hgeom2, ?_, ?_, ?_⟩
      · intro x hx
        rcases hmem2 x hx with h1 | h1 | h1
        · exact hbytes x h1
        · exact hb x h1
        · omega
      · rw [hbef2]
        exact validLoop_append _ _ hvb hv
      · rw [haft2]
        exact hva
    · push_neg at havail
      obtain ⟨hfit, havail2⟩ := havail
      cases hnrc : b.no_resize with
      | true =>
        rw [insertString_noResize allocOk b str hv (by omega) hnrc]
        exact hInv
      | false =>
        cases hac : allocOk with
        | true => exact absurd hac (havail2 hnrc)
        | false =>
          rw [insertString_allocFail b str hv (by omega) hnrc]
          exact hInv
  · rw [insertString_invalid allocOk b str (by revert hv; cases validLoop str <;> simp)]
    exact hInv

/-- Every buffer state reachable through the public operations satisfies
the internal invariant. -/
theorem reachable_inv (b : GapBuffer) (h : Reachable b) : BufInv b := by
  induction h with
  | create capacity => exact create_inv capacity
  | createUsingMemory mem hb => exact createUsingMemory_inv mem hb
  | insertString b allocOk str hb _ ih => exact insertString_inv allocOk b str hb ih
  | moveRelative b off b2 _ hs ih =>
    obtain ⟨b3, heq, hinv3, _⟩ := moveRelative_spec b off ih
    rw [heq] at hs
    injection hs with hs2
    rw [← hs2]
    exact hinv3
  | moveAbsolute b num b2 _ hs ih =>
    obtain ⟨b3, heq, hinv3, _⟩ := moveAbsolute_spec b num ih
    rw [heq] at hs
    injection hs with hs2
    rw [← hs2]
    exact hinv3
  | removeForwards b num _ ih => exact (removeForwards_spec b num ih).1
  | removeBackwards b num b2 _ hs ih =>
    obtain ⟨b3, heq, hinv3, _⟩ := removeBackwards_spec b num ih
    rw [heq] at hs
    injection hs with hs2
    rw [← hs2]
    exact hinv3

/- ===== Claim theorems ===== -/

/-- Claim C1, counterexample to the claim as frozen: the invariant fails
at a reachable state when validity is read per the spec's section 4.2.
Inserting the byte string F8 90 80 80 into a fresh capacity-4 buffer is
accepted by the code (its validation loop, built on getSymbolRune, also
accepts lead bytes >= 0xF8, the C4 bug), producing a reachable state whose
logical content is exactly F8 90 80 80 -- a string the spec-side validity
predicate rejects (rule 1: a lead byte >= 0xF8 is invalid).  So the
concatenated content of a reachable state need not be valid UTF-8. -/
theorem c1_counterexample :
    Reachable (GapBuffer_insertString true (GapBuffer_create 4)
      [0xF8, 0x90, 0x80, 0x80]).2 ∧
    getStringBeforeGap (GapBuffer_insertString true (GapBuffer_create 4)
        [0xF8, 0x90, 0x80, 0x80]).2 ++
      getStringAfterGap (GapBuffer_insertString true (GapBuffer_create 4)
        [0xF8, 0x90, 0x80, 0x80]).2 = [0xF8, 0x90, 0x80, 0x80] ∧
    validLoop [0xF8, 0x90, 0x80, 0x80] = true ∧
    specValid [0xF8, 0x90, 0x80, 0x80] = false :=
  ⟨Reachable.insertString (GapBuffer_create 4) true [0xF8, 0x90, 0x80, 0x80]
      (by unfold AllBytes; decide) (Reachable.create 4),
    by decide, by decide, by decide⟩

/-- Claim C1 (amended): every buffer state reachable through the public
operations (insertString, moveRelative, moveAbsolute, removeForwards,
removeBackwards, and the constructors) satisfies: gap_offset + gap_length
never exceeds the capacity (gap_offset is a Nat, so 0 <= gap_offset holds
by type), and the byte sequence formed by concatenating the region before
the gap with the region after the gap is accepted by the implementation's
own UTF-8 validation loop (the codec defined by getSymbolRune).  This
acceptance is strictly weaker than the spec's section-4.2 validity: the
code's codec also accepts lead bytes >= 0xF8 (see C4 and the
counterexample above), and such content is reachable. -/
theorem c1_invariant_preserved (b : GapBuffer) (h : Reachable b) :
    b.gap_offset + b.gap_length ≤ b.total ∧
    validLoop (getStringBeforeGap b ++ getStringAfterGap b) = true := by
  obtain ⟨hlen, hgeom, hbytes, hvb, hva⟩ := reachable_inv b h
  exact ⟨hgeom, validLoop_append _ _ hvb hva⟩

/-- Witness for C1 at a concrete reachable state. -/
theorem c1_witness :
    (GapBuffer_insertString true (GapBuffer_create 0) [104, 105]).2.gap_offset +
      (GapBuffer_insertString true (GapBuffer_create 0) [104, 105]).2.gap_length ≤
      (GapBuffer_insertString true (GapBuffer_create 0) [104, 105]).2.total ∧
    validLoop (getStringBeforeGap (GapBuffer_insertString true (GapBuffer_create 0)
        [104, 105]).2 ++
      getStringAfterGap (GapBuffer_insertString true (GapBuffer_create 0) [104, 105]).2) =
      true :=
  c1_invariant_preserved _
    (Reachable.insertString (GapBuffer_create 0) true [104, 105]
      (by unfold AllBytes; decide) (Reachable.create 0))

/-- Claim C2, counterexample: inserting one valid byte into an empty
growable buffer of capacity 0 succeeds, but gap_length does not decrease
by the inserted length relative to the pre-call buffer (relocation
reconstitutes the gap), contradicting the claim's unconditional
"gap_length decreases by len". -/
theorem c2_counterexample :
    (GapBuffer_insertString true (GapBuffer_create 0) [0x61]).1 = true ∧
    ¬ ((GapBuffer_insertString true (GapBuffer_create 0) [0x61]).2.gap_length + 1 =
       (GapBuffer_create 0).gap_length) := by decide

/-- Claim C2 as amended: failure cases return false with the buffer
unchanged exactly as claimed; on success the bytes are placed immediately
before the cursor and gap_offset increases by len, but gap_length
decreases by len only when no relocation was needed; when the buffer must
grow, the new gap_length is the new capacity minus the stored byte count
minus len. -/
theorem c2_insert_spec (allocOk : Bool) (b : GapBuffer) (str : List Nat)
    (h : Reachable b) :
    (validLoop str = false → GapBuffer_insertString allocOk b str = (false, b)) ∧
    ((GapBuffer_insertString allocOk b str).1 = false →
      (GapBuffer_insertString allocOk b str).2 = b) ∧
    (validLoop str = true → b.gap_length < str.length → b.no_resize = true →
      GapBuffer_insertString allocOk b str = (false, b)) ∧
    (validLoop str = true → b.gap_length < str.length → allocOk = false →
      GapBuffer_insertString allocOk b str = (false, b)) ∧
    (validLoop str = true →
      (str.length ≤ b.gap_length ∨ (b.no_resize = false ∧ allocOk = true)) →
      ∃ b2, GapBuffer_insertString allocOk b str = (true, b2) ∧
        getStringBeforeGap b2 = getStringBeforeGap b ++ str ∧
        getStringAfterGap b2 = getStringAfterGap b ∧
        b2.gap_offset = b.gap_offset + str.length ∧
        (str.length ≤ b.gap_length → b2.gap_length + str.length = b.gap_length) ∧
        (b.gap_length < str.length →
          b2.total = max (2 * b.total) (b.total + str.length) ∧
          b2.gap_length = b2.total - GapBuffer_getByteCount b - str.length)) := by
  obtain ⟨hlen, hgeom, hbytes, hvb, hva⟩ := reachable_inv b h
  refine ⟨?_, ?_, ?_, ?_, ?_⟩
  · intro hv
    exact insertString_invalid allocOk b str hv
  · intro hfalse
    by_cases hv : validLoop str = true
    · by_cases hfit : str.length ≤ b.gap_length
      · rw [insertString_noGrow allocOk b str hv hfit] at hfalse
        exact absurd hfalse (by simp)
      · cases hnrc : b.no_resize with
        | true =>
          rw [insertString_noResize allocOk b str hv (by omega) hnrc]
        | false =>
          cases hac : allocOk with
          | true =>
            rw [hac] at hfalse
            obtain ⟨b2, heq, _⟩ := insertString_success_spec true b str hlen hgeom hv
              (Or.inr ⟨hnrc, rfl⟩)
            rw [heq] at hfalse
            exact absurd hfalse (by simp)
          | false =>
            rw [insertString_allocFail b str hv (by omega) hnrc]
    · have hv2 : validLoop str = false := by revert hv; cases validLoop str <;> simp
      rw [insertString_invalid allocOk b str hv2]
  · intro hv hfit hnr
    exact insertString_noResize allocOk b str hv hfit hnr
  · intro hv hfit hac
    rw [hac]
    by_cases hnrc : b.no_resize = true
    · exact insertString_noResize false b str hv hfit hnrc
    · exact insertString_allocFail b str hv hfit (by revert hnrc; cases b.no_resize <;> simp)
  · intro hv havail
    obtain ⟨b2, heq, hgo2, hlen2, hgeom2, hnr2, hmem2, hbef2, haft2, hnogrow, hgrow⟩ :=
      insertString_success_spec allocOk b str hlen hgeom hv havail
    refine ⟨b2, heq, hbef2, haft2, hgo2, ?_, ?_⟩
    · intro hfit
      have := (hnogrow hfit).2
      omega
    · intro hlt
      obtain ⟨ht, hg⟩ := hgrow hlt
      exact ⟨ht, by rw [hg, GapBuffer_getByteCount]⟩

/-- Witness for C2 (amended) at a concrete reachable buffer and input. -/
theorem c2_witness :
    (validLoop [104] = false →
      GapBuffer_insertString true (GapBuffer_create 2) [104] = (false, GapBuffer_create 2)) ∧
    ((GapBuffer_insertString true (GapBuffer_create 2) [104]).1 = false →
      (GapBuffer_insertString true (GapBuffer_create 2) [104]).2 = GapBuffer_create 2) ∧
    (validLoop [104] = true → (GapBuffer_create 2).gap_length < ([104] : List Nat).length →
      (GapBuffer_create 2).no_resize = true →
      GapBuffer_insertString true (GapBuffer_create 2) [104] = (false, GapBuffer_create 2)) ∧
    (validLoop [104] = true → (GapBuffer_create 2).gap_length < ([104] : List Nat).length →
      true = false →
      GapBuffer_insertString true (GapBuffer_create 2) [104] = (false, GapBuffer_create 2)) ∧
    (validLoop [104] = true →
      (([104] : List Nat).length ≤ (GapBuffer_create 2).gap_length ∨
        ((GapBuffer_create 2).no_resize = false ∧ true = true)) →
      ∃ b2, GapBuffer_insertString true (GapBuffer_create 2) [104] = (true, b2) ∧
        getStringBeforeGap b2 = getStringBeforeGap (GapBuffer_create 2) ++ [104] ∧
        getStringAfterGap b2 = getStringAfterGap (GapBuffer_create 2) ∧
        b2.gap_offset = (GapBuffer_create 2).gap_offset + ([104] : List Nat).length ∧
        (([104] : List Nat).length ≤ (GapBuffer_create 2).gap_length →
          b2.gap_length + ([104] : List Nat).length = (GapBuffer_create 2).gap_length) ∧
        ((GapBuffer_create 2).gap_length < ([104] : List Nat).length →
          b2.total = max (2 * (GapBuffer_create 2).total)
            ((GapBuffer_create 2).total + ([104] : List Nat).length) ∧
          b2.gap_length = b2.total - GapBuffer_getByteCount (GapBuffer_create 2) -
            ([104] : List Nat).length)) :=
  c2_insert_spec true (GapBuffer_create 2) [104] (Reachable.create 2)

/-- Claim C4: the single-codepoint decoder is claimed to return -1 for
every lead byte at or above 0xF8; the code instead treats any lead in
0xF0..0xFF as a four-byte lead and its range check accepts 0xF8-led
sequences, so the byte string F8 90 80 80 decodes successfully with
return value 4.  This contradicts the decoder's own documentation, which
promises -1 on invalid UTF-8 input. -/
theorem c4_decoder_accepts_f8 :
    getSymbolRune [0xf8, 0x90, 0x80, 0x80] = 4 ∧ ((4 : Int) = -1 → False) := by
  constructor
  · decide
  · decide

/-- Claim C5: for a resizable buffer whose gap is smaller than the
requested minimum, growth allocates exactly max(2*capacity,
capacity+min), preserves the content on both sides of the gap and the
cursor, and leaves at least min free bytes; a failed allocation leaves
the buffer unchanged and reports failure. -/
theorem c5_grow_spec (b : GapBuffer) (min : Nat) (h : Reachable b)
    (hneed : b.gap_length < min) (hres : b.no_resize = false) :
    (∃ b2, ensureSpace true b min = (true, b2) ∧
      b2.total = max (2 * b.total) (b.total + min) ∧
      getStringBeforeGap b2 = getStringBeforeGap b ∧
      getStringAfterGap b2 = getStringAfterGap b ∧
      b2.gap_offset = b.gap_offset ∧
      min ≤ b2.gap_length) ∧
    ensureSpace false b min = (false, b) := by
  obtain ⟨hlen, hgeom, _, _, _⟩ := reachable_inv b h
  constructor
  · obtain ⟨b2, heq, _, _, hgo2, htot2, hgl2, _, _, hbef2, haft2, hsp⟩ :=
      ensureSpace_grow b min hneed hres hlen hgeom
    exact ⟨b2, heq, htot2, hbef2, haft2, hgo2, by omega⟩
  · exact ensureSpace_allocFail b min hneed hres

/-- Witness for C5 on the empty growable buffer. -/
theorem c5_witness :
    (∃ b2, ensureSpace true (GapBuffer_create 0) 1 = (true, b2) ∧
      b2.total = max (2 * (GapBuffer_create 0).total) ((GapBuffer_create 0).total + 1) ∧
      getStringBeforeGap b2 = getStringBeforeGap (GapBuffer_create 0) ∧
      getStringAfterGap b2 = getStringAfterGap (GapBuffer_create 0) ∧
      b2.gap_offset = (GapBuffer_create 0).gap_offset ∧
      1 ≤ b2.gap_length) ∧
    ensureSpace false (GapBuffer_create 0) 1 = (false, GapBuffer_create 0) :=
  c5_grow_spec (GapBuffer_create 0) 1 (Reachable.create 0) (by decide) (by decide)

/-- Claim C8: from any reachable state the assertion conditions inside the
backward scan of getPrecedingSymbol and inside the block moves
(moveBytesBeforeGap's size assert marked FIXME included) always hold: the
operations that contain them never take the assertion-failure branch,
i.e. their embeddings never return none. -/
theorem c8_asserts_unreachable (b : GapBuffer) (h : Reachable b) (n : Nat) (off : Int)
    (m : Nat) :
    (GapBuffer_removeBackwards b n).isSome = true ∧
    (GapBuffer_moveRelative b off).isSome = true ∧
    (GapBuffer_moveAbsolute b m).isSome = true := by
  have hInv := reachable_inv b h
  obtain ⟨b2, heq, _⟩ := removeBackwards_spec b n hInv
  obtain ⟨b3, heq3, _⟩ := moveRelative_spec b off hInv
  obtain ⟨b4, heq4, _⟩ := moveAbsolute_spec b m hInv
  rw [heq, heq3, heq4]
  exact ⟨rfl, rfl, rfl⟩

/-- Witness for C8 at a concrete reachable state and counts. -/
theorem c8_witness :
    (GapBuffer_removeBackwards (GapBuffer_insertString true (GapBuffer_create 0)
      [104, 105]).2 2).isSome = true ∧
    (GapBuffer_moveRelative (GapBuffer_insertString true (GapBuffer_create 0)
      [104, 105]).2 (-1)).isSome = true ∧
    (GapBuffer_moveAbsolute (GapBuffer_insertString true (GapBuffer_create 0)
      [104, 105]).2 5).isSome = true :=
  c8_asserts_unreachable _
    (Reachable.insertString (GapBuffer_create 0) true [104, 105]
      (by unfold AllBytes; decide) (Reachable.create 0)) 2 (-1) 5

/-- Claim C10: inserting the empty string always succeeds and changes
nothing, whatever the buffer (a full fixed-memory buffer with an empty
gap included): no growth is attempted because ensureSpace finds
gap_length >= 0. -/
theorem c10_insert_empty (allocOk : Bool) (b : GapBuffer) :
    GapBuffer_insertString allocOk b [] = (true, b) := by
  cases b with
  | mk st nr go gl tot d =>
    rw [GapBuffer_insertString, if_pos (show validLoop [] = true from rfl),
      insertBytesBeforeCursor, show ([] : List Nat).length = 0 from rfl,
      ensureSpace_enough allocOk _ 0 (Nat.zero_le _)]
    simp [memcpyAt]

/-- Claim C6: motion and deletion requests clamp to the codepoints
actually available, acting on whole symbols only: removeForwards leaves
gap_offset unchanged and drops exactly min(n, available) symbols after
the cursor; removeBackwards succeeds, keeps the after-gap region, keeps
exactly count-n leading symbols before the cursor and moves gap_offset
back by exactly the removed bytes; moveRelative and moveAbsolute succeed,
preserve the logical content and clamp the cursor's codepoint position at
the ends of the string. -/
theorem c6_clamping (b : GapBuffer) (h : Reachable b) (n m : Nat) (off : Int) :
    ((GapBuffer_removeForwards b n).gap_offset = b.gap_offset ∧
      getStringBeforeGap (GapBuffer_removeForwards b n) = getStringBeforeGap b ∧
      getStringAfterGap (GapBuffer_removeForwards b n) =
        dropSyms n (getStringAfterGap b) ∧
      countSyms (getStringAfterGap (GapBuffer_removeForwards b n)) =
        countSyms (getStringAfterGap b) - n) ∧
    (∃ bB, GapBuffer_removeBackwards b n = some bB ∧
      getStringAfterGap bB = getStringAfterGap b ∧
      getStringBeforeGap bB =
        takeSyms (countSyms (getStringBeforeGap b) - n) (getStringBeforeGap b) ∧
      countSyms (getStringBeforeGap bB) = countSyms (getStringBeforeGap b) - n ∧
      bB.gap_offset = (getStringBeforeGap bB).length) ∧
    (∃ bR, GapBuffer_moveRelative b off = some bR ∧
      getStringBeforeGap bR ++ getStringAfterGap bR =
        getStringBeforeGap b ++ getStringAfterGap b ∧
      countSyms (getStringBeforeGap bR) =
        (if off < 0 then countSyms (getStringBeforeGap b) - (-off).toNat
         else min (countSyms (getStringBeforeGap b) + off.toNat)
           (countSyms (getStringBeforeGap b) + countSyms (getStringAfterGap b)))) ∧
    (∃ bA, GapBuffer_moveAbsolute b m = some bA ∧
      getStringBeforeGap bA ++ getStringAfterGap bA =
        getStringBeforeGap b ++ getStringAfterGap b ∧
      countSyms (getStringBeforeGap bA) =
        min m (countSyms (getStringBeforeGap b) + countSyms (getStringAfterGap b))) := by
  have hInv := reachable_inv b h
  obtain ⟨_, hF1, _, _, _, hF2, hF3, hF4⟩ := removeForwards_spec b n hInv
  obtain ⟨bB, hBeq, _, _, _, _, hB1, hB2, hB3, hB4⟩ := removeBackwards_spec b n hInv
  obtain ⟨bR, hReq, _, _, _, hR1, hR2⟩ := moveRelative_spec b off hInv
  obtain ⟨bA, hAeq, _, _, _, hA1, hA2⟩ := moveAbsolute_spec b m hInv
  exact ⟨⟨hF1, hF2, hF3, hF4⟩, ⟨bB, hBeq, hB1, hB2, hB3, hB4⟩,
    ⟨bR, hReq, hR1, hR2⟩, ⟨bA, hAeq, hA1, hA2⟩⟩

/-- Witness for C6: a buffer holding two codepoints, with requests larger
than the available amounts. -/
theorem c6_witness :
    ((GapBuffer_removeForwards (GapBuffer_insertString true (GapBuffer_create 0)
        [104, 105]).2 7).gap_offset =
        (GapBuffer_insertString true (GapBuffer_create 0) [104, 105]).2.gap_offset ∧
      getStringBeforeGap (GapBuffer_removeForwards (GapBuffer_insertString true
        (GapBuffer_create 0) [104, 105]).2 7) =
        getStringBeforeGap (GapBuffer_insertString true (GapBuffer_create 0) [104, 105]).2 ∧
      getStringAfterGap (GapBuffer_removeForwards (GapBuffer_insertString true
        (GapBuffer_create 0) [104, 105]).2 7) =
        dropSyms 7 (getStringAfterGap (GapBuffer_insertString true (GapBuffer_create 0)
          [104, 105]).2) ∧
      countSyms (getStringAfterGap (GapBuffer_removeForwards (GapBuffer_insertString true
        (GapBuffer_create 0) [104, 105]).2 7)) =
        countSyms (getStringAfterGap (GapBuffer_insertString true (GapBuffer_create 0)
          [104, 105]).2) - 7) ∧
    (∃ bB, GapBuffer_removeBackwards (GapBuffer_insertString true (GapBuffer_create 0)
        [104, 105]).2 7 = some bB ∧
      getStringAfterGap bB =
        getStringAfterGap (GapBuffer_insertString true (GapBuffer_create 0) [104, 105]).2 ∧
      getStringBeforeGap bB =
        takeSyms (countSyms (getStringBeforeGap (GapBuffer_insertString true
          (GapBuffer_create 0) [104, 105]).2) - 7)
          (getStringBeforeGap (GapBuffer_insertString true (GapBuffer_create 0)
            [104, 105]).2) ∧
      countSyms (getStringBeforeGap bB) =
        countSyms (getStringBeforeGap (GapBuffer_insertString true (GapBuffer_create 0)
          [104, 105]).2) - 7 ∧
      bB.gap_offset = (getStringBeforeGap bB).length) ∧
    (∃ bR, GapBuffer_moveRelative (GapBuffer_insertString true (GapBuffer_create 0)
        [104, 105]).2 (-9) = some bR ∧
      getStringBeforeGap bR ++ getStringAfterGap bR =
        getStringBeforeGap (GapBuffer_insertString true (GapBuffer_create 0)
          [104, 105]).2 ++
        getStringAfterGap (GapBuffer_insertString true (GapBuffer_create 0) [104, 105]).2 ∧
      countSyms (getStringBeforeGap bR) =
        (if (-9 : Int) < 0 then
          countSyms (getStringBeforeGap (GapBuffer_insertString true (GapBuffer_create 0)
            [104, 105]).2) - ((-(-9) : Int)).toNat
         else min (countSyms (getStringBeforeGap (GapBuffer_insertString true
             (GapBuffer_create 0) [104, 105]).2) + ((-9 : Int)).toNat)
           (countSyms (getStringBeforeGap (GapBuffer_insertString true (GapBuffer_create 0)
             [104, 105]).2) +
            countSyms (getStringAfterGap (GapBuffer_insertString true (GapBuffer_create 0)
              [104, 105]).2)))) ∧
    (∃ bA, GapBuffer_moveAbsolute (GapBuffer_insertString true (GapBuffer_create 0)
        [104, 105]).2 6 = some bA ∧
      getStringBeforeGap bA ++ getStringAfterGap bA =
        getStringBeforeGap (GapBuffer_insertString true (GapBuffer_create 0)
          [104, 105]).2 ++
        getStringAfterGap (GapBuffer_insertString true (GapBuffer_create 0) [104, 105]).2 ∧
      countSyms (getStringBeforeGap bA) =
        min 6 (countSyms (getStringBeforeGap (GapBuffer_insertString true
          (GapBuffer_create 0) [104, 105]).2) +
          countSyms (getStringAfterGap (GapBuffer_insertString true (GapBuffer_create 0)
            [104, 105]).2))) :=
  c6_clamping _
    (Reachable.insertString (GapBuffer_create 0) true [104, 105]
      (by unfold AllBytes; decide) (Reachable.create 0)) 7 6 (-9)

/-- Claim C7: inserting a valid string S into a freshly created buffer and
then moving the cursor to absolute position 0 reproduces exactly S as the
concatenation of the regions before and after the gap; cursor motion
never changes the logical content. -/
theorem c7_roundtrip (S : List Nat) (cap : Nat) (hv : validLoop S = true)
    (hb : AllBytes S) :
    ∃ b1 b2, GapBuffer_insertString true (GapBuffer_create cap) S = (true, b1) ∧
      getStringBeforeGap b1 ++ getStringAfterGap b1 = S ∧
      GapBuffer_moveAbsolute b1 0 = some b2 ∧
      getStringBeforeGap b2 ++ getStringAfterGap b2 = S := by
  obtain ⟨hlen, hgeom, _, _, _⟩ := create_inv cap
  obtain ⟨b1, heq, hgo1, hlen1, hgeom1, _, hmem1, hbef1, haft1, _, _⟩ :=
    insertString_success_spec true (GapBuffer_create cap) S hlen hgeom hv
      (Or.inr ⟨rfl, rfl⟩)
  have hbef0 : getStringBeforeGap (GapBuffer_create cap) = [] := by
    show (List.replicate cap 0).take 0 = []
    exact List.take_zero _
  have haft0 : getStringAfterGap (GapBuffer_create cap) = [] := by
    show (List.replicate cap 0).drop (0 + cap) = []
    exact List.drop_of_length_le (by simp)
  have hS1 : getStringBeforeGap b1 ++ getStringAfterGap b1 = S := by
    rw [hbef1, haft1, hbef0, haft0, List.nil_append, List.append_nil]
  have hInv1 : BufInv b1 := by
    have h2 := insertString_inv true (GapBuffer_create cap) S hb (create_inv cap)
    rw [heq] at h2
    exact h2
  obtain ⟨b2, heq2, hinv2, _, _, hcontent, _⟩ := moveAbsolute_spec b1 0 hInv1
  exact ⟨b1, b2, heq, hS1, heq2, by rw [hcontent, hS1]⟩

/-- Witness for C7 with a concrete mixed-width string. -/
theorem c7_witness :
    ∃ b1 b2, GapBuffer_insertString true (GapBuffer_create 0) [104, 0xc3, 0xa9] =
        (true, b1) ∧
      getStringBeforeGap b1 ++ getStringAfterGap b1 = [104, 0xc3, 0xa9] ∧
      GapBuffer_moveAbsolute b1 0 = some b2 ∧
      getStringBeforeGap b2 ++ getStringAfterGap b2 = [104, 0xc3, 0xa9] :=
  c7_roundtrip [104, 0xc3, 0xa9] 0 (by decide) (by unfold AllBytes; decide)

/- ===== Newline scanning and line splitting ===== -/

theorem length_takeWhile_le (p : Nat → Bool) (l : List Nat) :
    (l.takeWhile p).length ≤ l.length := by
  conv =>
    rhs
    rw [← List.takeWhile_append_dropWhile p l]
  rw [List.length_append]
  omega

theorem dropWhile_eq_drop (p : Nat → Bool) (l : List Nat) :
    l.dropWhile p = l.drop (l.takeWhile p).length := by
  have h := List.takeWhile_append_dropWhile p l
  have h2 : (l.takeWhile p ++ l.dropWhile p).drop (l.takeWhile p).length
      = l.dropWhile p := List.drop_left _ _
  rw [h] at h2
  exact h2.symm

theorem take_takeWhile (p : Nat → Bool) (l : List Nat) :
    l.take (l.takeWhile p).length = l.takeWhile p := by
  have h := List.takeWhile_append_dropWhile p l
  have h2 : (l.takeWhile p ++ l.dropWhile p).take (l.takeWhile p).length
      = l.takeWhile p := List.take_left _ _
  rw [h] at h2
  exact h2

theorem drop_eq_getD_cons (data : List Nat) (i : Nat) (h : i < data.length) :
    data.drop i = data.getD i 0 :: data.drop (i + 1) := by
  rw [List.drop_eq_getElem_cons h]
  congr 1
  rw [List.getD_eq_getElem?_getD, List.getElem?_eq_getElem h]
  rfl

theorem scanNLGo_eq (data : List Nat) (bound : Nat) :
    ∀ (n i : Nat), bound ≤ data.length → i + n = bound →
    scanNLGo data bound n i =
      i + (((data.drop i).take n).takeWhile (fun y => y != 10)).length := by
  intro n
  induction n with
  | zero =>
    intro i _ _
    simp [scanNLGo]
  | succ n ih =>
    intro i hbl hib
    have hilt : i < bound := by omega
    have hid : i < data.length := by omega
    have hdc := drop_eq_getD_cons data i hid
    simp only [scanNLGo]
    rw [if_pos hilt, hdc, List.take_succ_cons]
    by_cases h10 : (data.getD i 0 == 10) = true
    · rw [if_pos h10]
      have hbne : (data.getD i 0 != 10) = false := by
        show (!(data.getD i 0 == 10)) = false
        rw [h10]
        rfl
      have htw : ((data.getD i 0 :: ((data.drop (i + 1)).take n)).takeWhile
          (fun y => y != 10)) = [] := by
        rw [List.takeWhile_cons, hbne, if_neg (by decide)]
      rw [htw]
      simp
    · have h10f : (data.getD i 0 == 10) = false := by
        revert h10
        cases data.getD i 0 == 10 <;> simp
      have hbne : (data.getD i 0 != 10) = true := by
        show (!(data.getD i 0 == 10)) = true
        rw [h10f]
        rfl
      rw [if_neg h10, ih (i + 1) hbl (by omega)]
      have htw : ((data.getD i 0 :: ((data.drop (i + 1)).take n)).takeWhile
          (fun y => y != 10)) = data.getD i 0 ::
            (((data.drop (i + 1)).take n).takeWhile (fun y => y != 10)) := by
        rw [List.takeWhile_cons, hbne, if_pos rfl]
      rw [htw, List.length_cons]
      omega

theorem scanNL_eq (data : List Nat) (bound i : Nat) (hbl : bound ≤ data.length)
    (hib : i ≤ bound) :
    scanNL data bound i =
      i + (((data.drop i).take (bound - i)).takeWhile (fun y => y != 10)).length := by
  rw [scanNL, scanNLGo_eq data bound (bound - i) i hbl (by omega)]

theorem splitLinesGo_fuel : ∀ (f1 f2 : Nat) (s : List Nat), s.length ≤ f1 →
    s.length ≤ f2 → splitLinesGo f1 s = splitLinesGo f2 s := by
  intro f1
  induction f1 with
  | zero =>
    intro f2 s h1 _
    have : s = [] := List.length_eq_zero.mp (Nat.le_zero.mp h1)
    subst this
    cases f2 <;> rfl
  | succ f1 ih =>
    intro f2 s h1 h2
    cases s with
    | nil => cases f2 <;> rfl
    | cons x t =>
      cases f2 with
      | zero => simp at h2
      | succ f2 =>
        simp only [splitLinesGo]
        have hdw : (x :: t).dropWhile (fun y => y != 10) =
            (x :: t).drop ((x :: t).takeWhile (fun y => y != 10)).length :=
          dropWhile_eq_drop _ _
        rcases hr : (x :: t).dropWhile (fun y => y != 10) with _ | ⟨r0, rt⟩
        · rfl
        · have hlt : rt.length < (x :: t).length := by
            rw [hr] at hdw
            have h3 := congrArg List.length hdw
            rw [List.length_drop] at h3
            simp only [List.length_cons] at *
            omega
          have hrec : splitLinesGo f1 rt = splitLinesGo f2 rt := by
            simp only [List.length_cons] at h1 h2 hlt
            exact ih f2 rt (by omega) (by omega)
          show (x :: t).takeWhile (fun y => y != 10) :: splitLinesGo f1 rt =
            (x :: t).takeWhile (fun y => y != 10) :: splitLinesGo f2 rt
          rw [hrec]

theorem splitLines_cons_eq (x : Nat) (t : List Nat) :
    splitLines (x :: t) =
      (match (x :: t).dropWhile (fun y => y != 10) with
       | [] => [(x :: t).takeWhile (fun y => y != 10)]
       | _ :: rt => (x :: t).takeWhile (fun y => y != 10) :: splitLines rt) := by
  show splitLinesGo (t.length + 1) (x :: t) = _
  simp only [splitLinesGo]
  have hdw : (x :: t).dropWhile (fun y => y != 10) =
      (x :: t).drop ((x :: t).takeWhile (fun y => y != 10)).length :=
    dropWhile_eq_drop _ _
  rcases hr : (x :: t).dropWhile (fun y => y != 10) with _ | ⟨r0, rt⟩
  · rfl
  · have hlt : rt.length < (x :: t).length := by
      rw [hr] at hdw
      have h3 := congrArg List.length hdw
      rw [List.length_drop] at h3
      simp only [List.length_cons] at *
      omega
    have hrec : splitLinesGo t.length rt = splitLines rt := by
      apply splitLinesGo_fuel
      · simp only [List.length_cons] at hlt
        omega
      · exact Nat.le_refl _
    show (x :: t).takeWhile (fun y => y != 10) :: splitLinesGo t.length rt =
      (x :: t).takeWhile (fun y => y != 10) :: splitLines rt
    rw [hrec]

/-- splitLines of a string with no newline: the whole string is one line. -/
theorem splitLines_no_nl (s : List Nat) (hne : s ≠ [])
    (h : s.takeWhile (fun y => y != 10) = s) : splitLines s = [s] := by
  cases s with
  | nil => exact absurd rfl hne
  | cons x t =>
    rw [splitLines_cons_eq]
    have hdw : (x :: t).dropWhile (fun y => y != 10) = [] := by
      rw [dropWhile_eq_drop, h]
      exact List.drop_of_length_le (Nat.le_refl _)
    rw [hdw, h]

/-- splitLines of a string whose takeWhile stops strictly early: the head
line splits off and the rest follows after the newline byte. -/
theorem splitLines_found (s : List Nat)
    (h : (s.takeWhile (fun y => y != 10)).length < s.length) :
    splitLines s = s.takeWhile (fun y => y != 10) ::
      splitLines (s.drop ((s.takeWhile (fun y => y != 10)).length + 1)) := by
  cases s with
  | nil => simp at h
  | cons x t =>
    rw [splitLines_cons_eq]
    have hdw : (x :: t).dropWhile (fun y => y != 10) =
        (x :: t).drop ((x :: t).takeWhile (fun y => y != 10)).length :=
      dropWhile_eq_drop _ _
    rcases hr : (x :: t).dropWhile (fun y => y != 10) with _ | ⟨r0, rt⟩
    · rw [hr] at hdw
      have h3 := congrArg List.length hdw.symm
      rw [List.length_drop] at h3
      simp only [List.length_nil] at h3
      omega
    · rw [hr] at hdw
      have : rt = ((x :: t).drop ((x :: t).takeWhile (fun y => y != 10)).length).tail := by
        rw [← hdw]
        rfl
      rw [this, List.tail_drop]

/- ===== takeWhile on concatenations (for the gap-straddling lines) ===== -/

theorem takeWhile_length_eq (p : Nat → Bool) (l : List Nat)
    (h : (l.takeWhile p).length = l.length) : l.takeWhile p = l := by
  have h2 := take_takeWhile p l
  rw [h, List.take_length] at h2
  exact h2.symm

theorem takeWhile_append_all (p : Nat → Bool) :
    ∀ (l1 l2 : List Nat), l1.takeWhile p = l1 →
    (l1 ++ l2).takeWhile p = l1 ++ l2.takeWhile p := by
  intro l1
  induction l1 with
  | nil => intro l2 _; rfl
  | cons x t ih =>
    intro l2 h
    rw [List.takeWhile_cons] at h
    by_cases hx : p x = true
    · rw [if_pos hx] at h
      have ht : t.takeWhile p = t := by
        injection h
      rw [List.cons_append, List.takeWhile_cons, if_pos hx, ih l2 ht, List.cons_append]
    · rw [if_neg hx] at h
      exact absurd h.symm (List.cons_ne_nil x t)

theorem takeWhile_append_lt (p : Nat → Bool) :
    ∀ (l1 l2 : List Nat), (l1.takeWhile p).length < l1.length →
    (l1 ++ l2).takeWhile p = l1.takeWhile p := by
  intro l1
  induction l1 with
  | nil => intro l2 h; simp at h
  | cons x t ih =>
    intro l2 h
    rw [List.takeWhile_cons] at h ⊢
    by_cases hx : p x = true
    · rw [if_pos hx] at h ⊢
      rw [List.cons_append, List.takeWhile_cons, if_pos hx]
      rw [List.length_cons, List.length_cons] at h
      rw [ih l2 (by omega)]
    · rw [if_neg hx] at h ⊢
      rw [List.cons_append, List.takeWhile_cons, if_neg hx]

/- ===== Scratch-array stitching (memcpy into the 512-byte maybe) ===== -/

theorem memcpyAt_length (d : List Nat) (off : Nat) (s : List Nat)
    (h : off + s.length ≤ d.length) : (memcpyAt d off s).length = d.length := by
  unfold memcpyAt
  rw [List.length_append, List.length_append, List.length_take, List.length_drop]
  omega

theorem memcpyAt_zero (d s : List Nat) : memcpyAt d 0 s = s ++ d.drop s.length := by
  unfold memcpyAt
  rw [List.take_zero, List.nil_append, Nat.zero_add]

theorem memcpy_stitch (mb f1 f2 : List Nat) (hmb : mb.length = 512)
    (hle : f1.length + f2.length ≤ 512) :
    (memcpyAt (memcpyAt mb 0 f1) f1.length f2).take (f1.length + f2.length)
        = f1 ++ f2 ∧
    (memcpyAt (memcpyAt mb 0 f1) f1.length f2).length = 512 := by
  have h1 : memcpyAt mb 0 f1 = f1 ++ mb.drop f1.length := memcpyAt_zero mb f1
  have hlen1 : (memcpyAt mb 0 f1).length = 512 := by
    rw [h1, List.length_append, List.length_drop]
    omega
  have hlen2 : (memcpyAt (memcpyAt mb 0 f1) f1.length f2).length = 512 := by
    rw [memcpyAt_length _ _ _ (by omega)]
    exact hlen1
  refine ⟨?_, hlen2⟩
  rw [h1]
  unfold memcpyAt
  rw [List.take_left]
  have hdrop : (f1 ++ mb.drop f1.length).drop (f1.length + f2.length) =
      (mb.drop f1.length).drop f2.length := by
    rw [List.drop_append]
  rw [hdrop, List.take_append_eq_append_take,
    List.take_of_length_le (by rw [List.length_append])]
  have hz : f1.length + f2.length - (f1 ++ f2).length = 0 := by
    rw [List.length_append]
    omega
  rw [hz, List.take_zero, List.append_nil]

/- ===== Iterator step equations ===== -/

theorem next_crossed_eq (b : GapBuffer) (c : Nat) (mb : List Nat) :
    GapBufferIter_next true b ⟨true, c, mb⟩ =
      (if scanNL b.data b.total c < b.total then
        some ({ str := (b.data.drop c).take (scanNL b.data b.total c - c),
                len := scanNL b.data b.total c - c },
              { crossed_gap := true, cur := scanNL b.data b.total c + 1, maybe := mb })
      else if scanNL b.data b.total c - c = 0 then none
      else some ({ str := (b.data.drop c).take (scanNL b.data b.total c - c),
                   len := scanNL b.data b.total c - c },
                 { crossed_gap := true, cur := scanNL b.data b.total c, maybe := mb })) := rfl

theorem next_precross_eq (b : GapBuffer) (c : Nat) (mb : List Nat) (i2 i4 : Nat)
    (h2 : scanNL b.data b.gap_offset c = i2)
    (h4 : scanNL b.data b.total (i2 + b.gap_length) = i4) :
    GapBufferIter_next true b ⟨false, c, mb⟩ =
      (if i2 = b.gap_offset then
        (if b.total ≤ i4 ∧ (i2 - c) + (i4 - (i2 + b.gap_length)) = 0 then none
         else
           if 512 < (i2 - c) + (i4 - (i2 + b.gap_length)) then
             some ({ str := (b.data.drop c).take (i2 - c) ++
                       (b.data.drop (i2 + b.gap_length)).take (i4 - (i2 + b.gap_length)),
                     len := (i2 - c) + (i4 - (i2 + b.gap_length)) },
                   { crossed_gap := true,
                     cur := if i4 < b.total then i4 + 1 else i4, maybe := mb })
           else
             some ({ str := (memcpyAt (memcpyAt mb 0 ((b.data.drop c).take (i2 - c)))
                       (i2 - c)
                       ((b.data.drop (i2 + b.gap_length)).take (i4 - (i2 + b.gap_length)))).take
                         ((i2 - c) + (i4 - (i2 + b.gap_length))),
                     len := (i2 - c) + (i4 - (i2 + b.gap_length)) },
                   { crossed_gap := true,
                     cur := if i4 < b.total then i4 + 1 else i4,
                     maybe := memcpyAt (memcpyAt mb 0 ((b.data.drop c).take (i2 - c)))
                       (i2 - c)
                       ((b.data.drop (i2 + b.gap_length)).take (i4 - (i2 + b.gap_length))) }))
      else some ({ str := (b.data.drop c).take (i2 - c), len := i2 - c },
                 { crossed_gap := false, cur := i2 + 1, maybe := mb })) := by
  subst h2
  subst h4
  rfl

theorem iterInv_crossed (b : GapBuffer) (cur : Nat) (mbl : List Nat)
    (h1 : mbl.length = 512) (h2 : cur ≤ b.total) :
    IterInv b ⟨true, cur, mbl⟩ (b.data.drop cur) :=
  ⟨h1, Or.inl ⟨rfl, h2, rfl⟩⟩

theorem iterInv_precross (b : GapBuffer) (cur : Nat) (mbl : List Nat)
    (h1 : mbl.length = 512) (h2 : cur ≤ b.gap_offset) :
    IterInv b ⟨false, cur, mbl⟩ ((b.data.drop cur).take (b.gap_offset - cur) ++
      b.data.drop (b.gap_offset + b.gap_length)) :=
  ⟨h1, Or.inr ⟨rfl, h2, rfl⟩⟩

/-- Main iterator simulation: from any state related to a remaining logical
suffix rem, running the iterator out yields exactly the claim-side line
split of rem.  Induction on the step budget; every yielded line consumes
at least one byte of rem. -/
theorem iterLines_eq_splitLines (b : GapBuffer) (hl : b.data.length = b.total)
    (hg : b.gap_offset + b.gap_length ≤ b.total) :
    ∀ (fuel : Nat) (st : GapBufferIter) (rem : List Nat), IterInv b st rem →
      rem.length < fuel → iterLines true b fuel st = splitLines rem := by
  intro fuel
  induction fuel with
  | zero =>
    intro st rem _ hf
    exact absurd hf (Nat.not_lt_zero _)
  | succ fuel ih =>
    intro st rem hinv hf
    obtain ⟨cg, c, mb⟩ := st
    obtain ⟨hmb, hcase⟩ := hinv
    rcases hcase with ⟨hcg, hcT, hrem⟩ | ⟨hcg, hcgo, hrem⟩
    · -- the gap has already been crossed: the cursor indexes data directly
      have hcg2 : cg = true := hcg
      subst hcg2
      have hc : c ≤ b.total := hcT
      have hrem2 : rem = b.data.drop c := hrem
      have hmb2 : mb.length = 512 := hmb
      have hdlen : (b.data.drop c).length = b.total - c := by
        rw [List.length_drop, hl]
      have hslice : (b.data.drop c).take (b.total - c) = b.data.drop c :=
        List.take_of_length_le (le_of_eq hdlen)
      have hscan : scanNL b.data b.total c =
          c + ((b.data.drop c).takeWhile (fun y => y != 10)).length := by
        rw [scanNL_eq b.data b.total c (le_of_eq hl.symm) hc, hslice]
      have htwle : ((b.data.drop c).takeWhile (fun y => y != 10)).length ≤ b.total - c := by
        have h5 := length_takeWhile_le (fun y => y != 10) (b.data.drop c)
        rw [hdlen] at h5
        exact h5
      rw [hrem2] at hf
      rw [hdlen] at hf
      simp only [iterLines]
      rw [next_crossed_eq, hscan, Nat.add_sub_cancel_left]
      by_cases hfound : c + ((b.data.drop c).takeWhile (fun y => y != 10)).length < b.total
      · rw [if_pos hfound]
        show (b.data.drop c).take ((b.data.drop c).takeWhile (fun y => y != 10)).length ::
            iterLines true b fuel
              ⟨true, c + ((b.data.drop c).takeWhile (fun y => y != 10)).length + 1, mb⟩
            = splitLines rem
        rw [take_takeWhile, hrem2,
          splitLines_found (b.data.drop c) (by rw [hdlen]; omega)]
        congr 1
        rw [drop_drop_add]
        apply ih
        · exact iterInv_crossed b _ mb hmb2 (by omega)
        · rw [List.length_drop, hl]
          omega
      · rw [if_neg hfound]
        have htweq : ((b.data.drop c).takeWhile (fun y => y != 10)).length = b.total - c := by
          omega
        have htwall : (b.data.drop c).takeWhile (fun y => y != 10) = b.data.drop c :=
          takeWhile_length_eq _ _ (by rw [hdlen, htweq])
        by_cases hz : ((b.data.drop c).takeWhile (fun y => y != 10)).length = 0
        · rw [if_pos hz]
          show ([] : List (List Nat)) = splitLines rem
          have hnil : b.data.drop c = [] := by
            apply List.drop_of_length_le
            rw [hl]
            omega
          rw [hrem2, hnil]
          rfl
        · rw [if_neg hz, htweq]
          show (b.data.drop c).take (b.total - c) ::
              iterLines true b fuel ⟨true, c + (b.total - c), mb⟩
              = splitLines rem
          rw [hslice, hrem2,
            splitLines_no_nl (b.data.drop c)
              (List.length_pos.mp (by rw [hdlen]; omega)) htwall]
          congr 1
          have hnil2 : b.data.drop (c + (b.total - c)) = [] :=
            List.drop_of_length_le (by rw [hl]; omega)
          have h6 := ih ⟨true, c + (b.total - c), mb⟩ (b.data.drop (c + (b.total - c)))
            (iterInv_crossed b _ mb hmb2 (by omega))
            (by rw [hnil2]; simp only [List.length_nil]; omega)
          rw [h6, hnil2]
          rfl
    · -- still before the gap
      have hcg2 : cg = false := hcg
      subst hcg2
      have hc : c ≤ b.gap_offset := hcgo
      have hrem2 : rem = (b.data.drop c).take (b.gap_offset - c) ++
          b.data.drop (b.gap_offset + b.gap_length) := hrem
      have hmb2 : mb.length = 512 := hmb
      have hgoT : b.gap_offset ≤ b.data.length := by rw [hl]; omega
      have hbeflen : ((b.data.drop c).take (b.gap_offset - c)).length = b.gap_offset - c := by
        rw [List.length_take, List.length_drop, hl, Nat.min_eq_left (by omega)]
      have haftlen : (b.data.drop (b.gap_offset + b.gap_length)).length
          = b.total - (b.gap_offset + b.gap_length) := by
        rw [List.length_drop, hl]
      have hscan1 : scanNL b.data b.gap_offset c = c +
          (((b.data.drop c).take (b.gap_offset - c)).takeWhile (fun y => y != 10)).length := by
        rw [scanNL_eq b.data b.gap_offset c hgoT hc]
      have htw1le : (((b.data.drop c).take (b.gap_offset - c)).takeWhile
          (fun y => y != 10)).length ≤ b.gap_offset - c := by
        have h5 := length_takeWhile_le (fun y => y != 10)
          ((b.data.drop c).take (b.gap_offset - c))
        rw [hbeflen] at h5
        exact h5
      rw [hrem2] at hf
      rw [List.length_append, hbeflen, haftlen] at hf
      simp only [iterLines]
      by_cases hnl1 : c + (((b.data.drop c).take (b.gap_offset - c)).takeWhile
          (fun y => y != 10)).length < b.gap_offset
      · -- a newline strictly before the gap: the simple branch
        rw [next_precross_eq b c mb (scanNL b.data b.gap_offset c)
            (scanNL b.data b.total (scanNL b.data b.gap_offset c + b.gap_length)) rfl rfl,
          if_neg (show ¬ scanNL b.data b.gap_offset c = b.gap_offset by rw [hscan1]; omega)]
        show (b.data.drop c).take (scanNL b.data b.gap_offset c - c) ::
            iterLines true b fuel ⟨false, scanNL b.data b.gap_offset c + 1, mb⟩
            = splitLines rem
        rw [hscan1, Nat.add_sub_cancel_left]
        have hstr : (b.data.drop c).take
            ((((b.data.drop c).take (b.gap_offset - c)).takeWhile (fun y => y != 10)).length)
            = ((b.data.drop c).take (b.gap_offset - c)).takeWhile (fun y => y != 10) := by
          rw [← Nat.min_eq_left htw1le, ← List.take_take, take_takeWhile]
        rw [hstr, hrem2]
        have h1 : (((b.data.drop c).take (b.gap_offset - c)).takeWhile
            (fun y => y != 10)).length < ((b.data.drop c).take (b.gap_offset - c)).length := by
          rw [hbeflen]
          omega
        have hh : (((b.data.drop c).take (b.gap_offset - c) ++
            b.data.drop (b.gap_offset + b.gap_length)).takeWhile (fun y => y != 10)).length <
            ((b.data.drop c).take (b.gap_offset - c) ++
              b.data.drop (b.gap_offset + b.gap_length)).length := by
          rw [takeWhile_append_lt (fun y => y != 10) _ _ h1, List.length_append, hbeflen,
            haftlen]
          omega
        rw [splitLines_found _ hh, takeWhile_append_lt (fun y => y != 10) _ _ h1]
        congr 1
        rw [List.drop_append_of_le_length (by rw [hbeflen]; omega)]
        rw [List.drop_take, drop_drop_add]
        have hidx : b.gap_offset - c -
            ((((b.data.drop c).take (b.gap_offset - c)).takeWhile
              (fun y => y != 10)).length + 1) =
            b.gap_offset - (c + ((((b.data.drop c).take (b.gap_offset - c)).takeWhile
              (fun y => y != 10)).length + 1)) := by
          omega
        rw [hidx]
        apply ih
        · exact iterInv_precross b _ mb hmb2 (by omega)
        · rw [List.length_append, List.length_take, List.length_drop, hl,
            Nat.min_eq_left (by omega), haftlen]
          omega
      · -- the scan reaches the gap: cross it
        have hL1eq : (((b.data.drop c).take (b.gap_offset - c)).takeWhile
            (fun y => y != 10)).length = b.gap_offset - c := by
          omega
        have htw1all : ((b.data.drop c).take (b.gap_offset - c)).takeWhile (fun y => y != 10)
            = (b.data.drop c).take (b.gap_offset - c) :=
          takeWhile_length_eq _ _ (by rw [hbeflen, hL1eq])
        have hi2 : scanNL b.data b.gap_offset c = b.gap_offset := by
          rw [hscan1]
          omega
        have haft_slice : (b.data.drop (b.gap_offset + b.gap_length)).take
            (b.total - (b.gap_offset + b.gap_length)) =
            b.data.drop (b.gap_offset + b.gap_length) :=
          List.take_of_length_le (le_of_eq haftlen)
        have hscan2 : scanNL b.data b.total (b.gap_offset + b.gap_length) =
            (b.gap_offset + b.gap_length) +
            ((b.data.drop (b.gap_offset + b.gap_length)).takeWhile
              (fun y => y != 10)).length := by
          rw [scanNL_eq b.data b.total (b.gap_offset + b.gap_length) (le_of_eq hl.symm) hg,
            haft_slice]
        have htw2le : ((b.data.drop (b.gap_offset + b.gap_length)).takeWhile
            (fun y => y != 10)).length ≤ b.total - (b.gap_offset + b.gap_length) := by
          have h5 := length_takeWhile_le (fun y => y != 10)
            (b.data.drop (b.gap_offset + b.gap_length))
          rw [haftlen] at h5
          exact h5
        rw [next_precross_eq b c mb b.gap_offset
            (scanNL b.data b.total (b.gap_offset + b.gap_length)) hi2 rfl,
          if_pos (rfl : b.gap_offset = b.gap_offset), hscan2, Nat.add_sub_cancel_left]
        by_cases hfound2 : (b.gap_offset + b.gap_length) +
            ((b.data.drop (b.gap_offset + b.gap_length)).takeWhile
              (fun y => y != 10)).length < b.total
        · -- a newline inside the after-gap region
          rw [if_neg (show ¬(b.total ≤ (b.gap_offset + b.gap_length) +
              ((b.data.drop (b.gap_offset + b.gap_length)).takeWhile
                (fun y => y != 10)).length ∧
              (b.gap_offset - c) + ((b.data.drop (b.gap_offset + b.gap_length)).takeWhile
                (fun y => y != 10)).length = 0) from fun h => absurd h.1 (by omega)),
            if_pos hfound2]
          have hh2 : ((((b.data.drop c).take (b.gap_offset - c)) ++
              b.data.drop (b.gap_offset + b.gap_length)).takeWhile
                (fun y => y != 10)).length <
              (((b.data.drop c).take (b.gap_offset - c)) ++
                b.data.drop (b.gap_offset + b.gap_length)).length := by
            rw [takeWhile_append_all (fun y => y != 10) _ _ htw1all, List.length_append,
              List.length_append, hbeflen, haftlen]
            omega
          by_cases hbig : 512 < (b.gap_offset - c) +
              ((b.data.drop (b.gap_offset + b.gap_length)).takeWhile
                (fun y => y != 10)).length
          · rw [if_pos hbig]
            show ((b.data.drop c).take (b.gap_offset - c) ++
                (b.data.drop (b.gap_offset + b.gap_length)).take
                  ((b.data.drop (b.gap_offset + b.gap_length)).takeWhile
                    (fun y => y != 10)).length) ::
                iterLines true b fuel
                  ⟨true, (b.gap_offset + b.gap_length) +
                    ((b.data.drop (b.gap_offset + b.gap_length)).takeWhile
                      (fun y => y != 10)).length + 1, mb⟩
                = splitLines rem
            rw [take_takeWhile, hrem2, splitLines_found _ hh2,
              takeWhile_append_all (fun y => y != 10) _ _ htw1all]
            congr 1
            conv =>
              rhs
              rw [List.length_append, Nat.add_assoc, List.drop_append, drop_drop_add]
            apply ih
            · exact iterInv_crossed b _ mb hmb2 (by omega)
            · rw [List.length_drop, hl]
              omega
          · rw [if_neg hbig]
            have hf2len : ((b.data.drop (b.gap_offset + b.gap_length)).take
                ((b.data.drop (b.gap_offset + b.gap_length)).takeWhile
                  (fun y => y != 10)).length).length =
                ((b.data.drop (b.gap_offset + b.gap_length)).takeWhile
                  (fun y => y != 10)).length := by
              rw [List.length_take, List.length_drop, hl, Nat.min_eq_left (by omega)]
            obtain ⟨hst1, hst2⟩ := memcpy_stitch mb
              ((b.data.drop c).take (b.gap_offset - c))
              ((b.data.drop (b.gap_offset + b.gap_length)).take
                ((b.data.drop (b.gap_offset + b.gap_length)).takeWhile
                  (fun y => y != 10)).length)
              hmb2 (by rw [hbeflen, hf2len]; omega)
            rw [hbeflen] at hst1 hst2
            rw [hf2len] at hst1
            rw [take_takeWhile] at hst2
            show ((memcpyAt (memcpyAt mb 0 ((b.data.drop c).take (b.gap_offset - c)))
                (b.gap_offset - c)
                ((b.data.drop (b.gap_offset + b.gap_length)).take
                  ((b.data.drop (b.gap_offset + b.gap_length)).takeWhile
                    (fun y => y != 10)).length)).take
                ((b.gap_offset - c) +
                  ((b.data.drop (b.gap_offset + b.gap_length)).takeWhile
                    (fun y => y != 10)).length)) ::
                iterLines true b fuel
                  ⟨true, (b.gap_offset + b.gap_length) +
                    ((b.data.drop (b.gap_offset + b.gap_length)).takeWhile
                      (fun y => y != 10)).length + 1,
                    memcpyAt (memcpyAt mb 0 ((b.data.drop c).take (b.gap_offset - c)))
                      (b.gap_offset - c)
                      ((b.data.drop (b.gap_offset + b.gap_length)).take
                        ((b.data.drop (b.gap_offset + b.gap_length)).takeWhile
                          (fun y => y != 10)).length)⟩
                = splitLines rem
            rw [hst1, take_takeWhile, hrem2, splitLines_found _ hh2,
              takeWhile_append_all (fun y => y != 10) _ _ htw1all]
            congr 1
            conv =>
              rhs
              rw [List.length_append, Nat.add_assoc, List.drop_append, drop_drop_add]
            apply ih
            · exact iterInv_crossed b _ _ hst2 (by omega)
            · rw [List.length_drop, hl]
              omega
        · -- no newline after the gap: the line runs to the end of the buffer
          have hL2eq : ((b.data.drop (b.gap_offset + b.gap_length)).takeWhile
              (fun y => y != 10)).length = b.total - (b.gap_offset + b.gap_length) := by
            omega
          have htw2all : (b.data.drop (b.gap_offset + b.gap_length)).takeWhile
              (fun y => y != 10) = b.data.drop (b.gap_offset + b.gap_length) :=
            takeWhile_length_eq _ _ (by rw [haftlen, hL2eq])
          by_cases hz : (b.gap_offset - c) +
              ((b.data.drop (b.gap_offset + b.gap_length)).takeWhile
                (fun y => y != 10)).length = 0
          · rw [if_pos ⟨by omega, hz⟩]
            show ([] : List (List Nat)) = splitLines rem
            have hb0 : (b.data.drop c).take (b.gap_offset - c) = [] :=
              List.length_eq_zero.mp (by rw [hbeflen]; omega)
            have ha0 : b.data.drop (b.gap_offset + b.gap_length) = [] :=
              List.length_eq_zero.mp (by rw [haftlen]; omega)
            rw [hrem2, hb0, ha0]
            rfl
          · rw [if_neg (fun h => hz h.2), if_neg hfound2]
            have hne2 : ((b.data.drop c).take (b.gap_offset - c) ++
                b.data.drop (b.gap_offset + b.gap_length)) ≠ [] :=
              List.length_pos.mp
                (by rw [List.length_append, hbeflen, haftlen]; omega)
            have hall2 : (((b.data.drop c).take (b.gap_offset - c) ++
                b.data.drop (b.gap_offset + b.gap_length)).takeWhile (fun y => y != 10)) =
                ((b.data.drop c).take (b.gap_offset - c) ++
                  b.data.drop (b.gap_offset + b.gap_length)) := by
              rw [takeWhile_append_all (fun y => y != 10) _ _ htw1all, htw2all]
            have hnil3 : b.data.drop ((b.gap_offset + b.gap_length) +
                ((b.data.drop (b.gap_offset + b.gap_length)).takeWhile
                  (fun y => y != 10)).length) = [] :=
              List.drop_of_length_le (by rw [hl]; omega)
            by_cases hbig : 512 < (b.gap_offset - c) +
                ((b.data.drop (b.gap_offset + b.gap_length)).takeWhile
                  (fun y => y != 10)).length
            · rw [if_pos hbig, hL2eq]
              show ((b.data.drop c).take (b.gap_offset - c) ++
                  (b.data.drop (b.gap_offset + b.gap_length)).take
                    (b.total - (b.gap_offset + b.gap_length))) ::
                  iterLines true b fuel
                    ⟨true, (b.gap_offset + b.gap_length) +
                      (b.total - (b.gap_offset + b.gap_length)), mb⟩
                  = splitLines rem
              rw [haft_slice, hrem2, splitLines_no_nl _ hne2 hall2]
              congr 1
              have hnil4 : b.data.drop ((b.gap_offset + b.gap_length) +
                  (b.total - (b.gap_offset + b.gap_length))) = [] :=
                List.drop_of_length_le (by rw [hl]; omega)
              have h6 := ih ⟨true, (b.gap_offset + b.gap_length) +
                  (b.total - (b.gap_offset + b.gap_length)), mb⟩
                (b.data.drop ((b.gap_offset + b.gap_length) +
                  (b.total - (b.gap_offset + b.gap_length))))
                (iterInv_crossed b _ mb hmb2 (by omega))
                (by rw [hnil4]; simp only [List.length_nil]; omega)
              rw [h6, hnil4]
              rfl
            · rw [if_neg hbig, hL2eq]
              have hf2len : ((b.data.drop (b.gap_offset + b.gap_length)).take
                  (b.total - (b.gap_offset + b.gap_length))).length =
                  b.total - (b.gap_offset + b.gap_length) := by
                rw [List.length_take, List.length_drop, hl, Nat.min_eq_left (by omega)]
              obtain ⟨hst1, hst2⟩ := memcpy_stitch mb
                ((b.data.drop c).take (b.gap_offset - c))
                ((b.data.drop (b.gap_offset + b.gap_length)).take
                  (b.total - (b.gap_offset + b.gap_length)))
                hmb2 (by rw [hbeflen, hf2len]; omega)
              rw [hbeflen] at hst1 hst2
              rw [hf2len] at hst1
              show ((memcpyAt (memcpyAt mb 0 ((b.data.drop c).take (b.gap_offset - c)))
                  (b.gap_offset - c)
                  ((b.data.drop (b.gap_offset + b.gap_length)).take
                    (b.total - (b.gap_offset + b.gap_length)))).take
                  ((b.gap_offset - c) + (b.total - (b.gap_offset + b.gap_length)))) ::
                  iterLines true b fuel
                    ⟨true, (b.gap_offset + b.gap_length) +
                      (b.total - (b.gap_offset + b.gap_length)),
                      memcpyAt (memcpyAt mb 0 ((b.data.drop c).take (b.gap_offset - c)))
                        (b.gap_offset - c)
                        ((b.data.drop (b.gap_offset + b.gap_length)).take
                          (b.total - (b.gap_offset + b.gap_length)))⟩
                  = splitLines rem
              rw [hst1, haft_slice, hrem2, splitLines_no_nl _ hne2 hall2]
              congr 1
              have hnil4 : b.data.drop ((b.gap_offset + b.gap_length) +
                  (b.total - (b.gap_offset + b.gap_length))) = [] :=
                List.drop_of_length_le (by rw [hl]; omega)
              rw [haft_slice] at hst2
              have h6 := ih ⟨true, (b.gap_offset + b.gap_length) +
                  (b.total - (b.gap_offset + b.gap_length)),
                  memcpyAt (memcpyAt mb 0 ((b.data.drop c).take (b.gap_offset - c)))
                    (b.gap_offset - c) (b.data.drop (b.gap_offset + b.gap_length))⟩
                (b.data.drop ((b.gap_offset + b.gap_length) +
                  (b.total - (b.gap_offset + b.gap_length))))
                (iterInv_crossed b _ _ hst2 (by omega))
                (by rw [hnil4]; simp only [List.length_nil]; omega)
              rw [h6, hnil4]
              rfl

/-- C3: for every buffer state reachable through the public operations,
iterating with the line iterator yields exactly the line split of the
logical string (before-gap region ++ after-gap region) on the newline
byte: delimiters excluded, a final unterminated non-empty fragment is a
last line, and an empty logical string yields no lines. -/
theorem c3_iterator_yields_splitLines (b : GapBuffer) (h : Reachable b) :
    linesOf b = splitLines (getStringBeforeGap b ++ getStringAfterGap b) := by
  obtain ⟨hlen, hle, _⟩ := reachable_inv b h
  have hinv : IterInv b GapBufferIter_init
      (getStringBeforeGap b ++ getStringAfterGap b) := by
    refine ⟨?_, Or.inr ⟨rfl, Nat.zero_le _, ?_⟩⟩
    · rfl
    · unfold getStringBeforeGap getStringAfterGap
      rfl
  have hflen : (getStringBeforeGap b ++ getStringAfterGap b).length < b.total + 1 := by
    unfold getStringBeforeGap getStringAfterGap
    rw [List.length_append, List.length_take, List.length_drop, hlen,
      Nat.min_eq_left (by omega)]
    omega
  exact iterLines_eq_splitLines b hlen hle (b.total + 1) GapBufferIter_init _ hinv hflen

theorem c3_witness :
    linesOf (GapBuffer_insertString true (GapBuffer_create 8) [97, 10, 98]).2 =
      splitLines
        (getStringBeforeGap (GapBuffer_insertString true (GapBuffer_create 8) [97, 10, 98]).2 ++
          getStringAfterGap (GapBuffer_insertString true (GapBuffer_create 8) [97, 10, 98]).2) :=
  c3_iterator_yields_splitLines _
    (Reachable.insertString (GapBuffer_create 8) true [97, 10, 98]
      (by unfold AllBytes; decide) (Reachable.create 8))

/-- C9: when a line straddles the gap, its combined length (520 here)
exceeds the 512-byte inline scratch and the heap allocation fails, the
iterator's next() does succeed, but the yielded line's len field is the
full combined length 520 while the returned slice stores only 512 bytes,
and the slice's first byte comes from the second fragment (the second
memcpy targets offset line_offset instead of line_length), so the stored
length is not consistent with len and the stored bytes are not the line's
prefix: the truncation described by the claim is implemented incorrectly. -/
theorem c9_truncated_line_len_bug :
    ((GapBufferIter_next false
        ⟨false, false, 260, 4, 524,
          List.replicate 260 65 ++ List.replicate 4 0 ++ List.replicate 260 66⟩
        GapBufferIter_init).map
      (fun p => (p.1.len, p.1.str.length, p.1.str.getD 0 0))) = some (520, 512, 66) := by
  rfl
